import Mathlib

/-!
Verification development for the mcp-sync repository (Python).

The definitions below are a shallow embedding of the synchronization engine
(`src/mcp_sync/sync.py`), the CLI template executor
(`src/mcp_sync/clients/executor.py`) and the configuration data model
(`src/mcp_sync/config/models.py`).

Modelling conventions:
- Python dicts are modelled as association lists (`Dict`) with Python
  semantics: assignment updates an existing key in place (keeping its
  position) or appends a fresh key; lookup finds the unique binding
  (dicts read from JSON or built by assignment have no duplicate keys);
  dict equality is key-set plus value agreement, order-insensitive.
- Server configuration dicts are modelled over the four keys the engine
  inspects: `command`, `args`, `env`, `url`.  For `args` the model keeps
  the three JSON states apart — key absent, key holding `null`, and key
  holding a list — because `model_dump()` always emits the key (with
  `None` when the field is unset) and the `.get("args", [])`
  concatenations in `_sync_cli_location` raise a `TypeError` exactly on
  the `null` state.  For the other keys a JSON `null` and an absent key
  are merged into `Option.none`: a `null` command falls into the
  non-string non-list branch of every consumer (`CmdVal.other`), `url` is
  read only for truthiness, and the executor guards `env` with
  `if env_vars:` (the merge is visible only to raw-equality comparisons
  between configs that agree on `command` and `args` while differing in
  `env` null-versus-absent; no statement below depends on that corner).
- Python regex matching with `re.match(r"^[class]+$", s)` is modelled
  faithfully, including the documented behaviour that `$` also matches
  just before a single trailing newline.
- The external CLI tool manipulated through command templates is modelled
  as a name-to-argv store that faithfully applies a successfully spawned
  add/remove invocation and lists its content (`CliState`); subprocess
  outcomes that the engine only observes (exit code, stdout) are passed
  in as explicit parameters where a claim depends on them.
-/

/-! ### Python dictionaries as association lists -/

abbrev Dict (α : Type) := List (String × α)

def dictLookup {α : Type} : Dict α → String → Option α
  | [], _ => none
  | p :: t, k => if p.1 = k then some p.2 else dictLookup t k

def dictInsert {α : Type} : Dict α → String → α → Dict α
  | [], k, v => [(k, v)]
  | p :: t, k, v => if p.1 = k then (k, v) :: t else p :: dictInsert t k v

def dictErase {α : Type} : Dict α → String → Dict α
  | [], _ => []
  | p :: t, k => if p.1 = k then t else p :: dictErase t k

def dictKeys {α : Type} (d : Dict α) : List String := d.map (·.1)

/-- Python `in` test on a dict. -/
def dictMem {α : Type} (d : Dict α) (k : String) : Bool :=
  (dictLookup d k).isSome

/-- Python `==` on dicts (order-insensitive key/value agreement). -/
def dictBEq {α : Type} [DecidableEq α] (a b : Dict α) : Bool :=
  a.all (fun p => decide (dictLookup b p.1 = dictLookup a p.1)) &&
  b.all (fun p => decide (dictLookup a p.1 = dictLookup b p.1))

/-- Python `set(a.keys()) == set(b.keys())`. -/
def keySetEq {α β : Type} (a : Dict α) (b : Dict β) : Bool :=
  a.all (fun p => dictMem b p.1) && b.all (fun p => dictMem a p.1)

def KeysNodup {α : Type} (d : Dict α) : Prop := (dictKeys d).Nodup

instance keysNodupDec {α : Type} (d : Dict α) : Decidable (KeysNodup d) :=
  List.nodupDecidable (dictKeys d)

/-! ### Python regex matching

`pyMatch1 first rest s` models `re.match(r"^FR*$", s)` where `F` is the
character class `first` and `R` the class `rest`; `pyMatchClass cls s`
models `re.match(r"^C+$", s)` for the class `cls`.  `$` matches at the end
of the string or just before a trailing newline, as documented for Python
regular expressions. -/

def pyMatchCore (first rest : Char → Bool) : List Char → Bool
  | [] => false
  | c :: t => first c && t.all rest

def pyMatch1 (first rest : Char → Bool) (s : String) : Bool :=
  let cs := s.data
  if cs.getLast? = some '\n' then pyMatchCore first rest cs.dropLast
  else pyMatchCore first rest cs

def pyMatchClass (cls : Char → Bool) (s : String) : Bool :=
  pyMatch1 cls cls s

/-- Character class `[a-zA-Z0-9_.-]` of `CLIExecutor._validate_command_name`. -/
def cmdNameChar (c : Char) : Bool :=
  c.isAlphanum || c = '_' || c = '.' || c = '-'

/-- Character class `[a-zA-Z0-9_-]` of the server-name checks. -/
def srvNameChar (c : Char) : Bool :=
  c.isAlphanum || c = '_' || c = '-'

/-- Python `str.lower`, restricted to the ASCII strings the engine handles. -/
def pyLower (s : String) : String := String.mk (s.data.map Char.toLower)

/-! ### Server configuration records

`SrvConfig` models a JSON server-config object over the keys the engine
inspects.  `CmdVal.other` stands for a present `command` key holding a
value that is neither a string nor a list (the executor treats it as an
empty command). -/

inductive CmdVal : Type
  | str (s : String)
  | list (l : List String)
  | other
deriving DecidableEq, Repr

/-- A present `args` key: either JSON `null` (what `model_dump()` emits
for an unset field) or a list of strings. -/
inductive ArgsVal : Type
  | nullV
  | list (l : List String)
deriving DecidableEq, Repr

structure SrvConfig : Type where
  command : Option CmdVal := none
  args : Option ArgsVal := none
  env : Option (Dict String) := none
  url : Option String := none
deriving DecidableEq, Repr

/-- `config.get("args", [])`: an absent key defaults to `[]`, a present
key yields its value — in particular a present `null` yields Python
`None`, modelled as `Option.none` here. -/
def getArgs (c : SrvConfig) : Option (List String) :=
  match c.args with
  | none => some []
  | some .nullV => none
  | some (.list l) => some l

/-- The message of the `TypeError` Python raises at `list + None`. -/
def typeErrMsg : String := "can only concatenate list (not \x22NoneType\x22) to list"

/-- The command normalisation block repeated at sync.py:236-242, 286-292
and 322-331: `cmd = config.get("command", []); args = config.get("args",
[])`, then `[cmd] + args` for a string command, `cmd + args` for a list
command (an absent command defaults to the list `[]`), and `[]` with no
concatenation for any other command value.  `none` models the
`TypeError` the concatenation raises when the `args` key holds `null`. -/
def normCmdE (c : SrvConfig) : Option (List String) :=
  match c.command with
  | some .other => some []
  | some (.str s) =>
    match getArgs c with
    | none => none
    | some a => some (s :: a)
  | some (.list l) =>
    match getArgs c with
    | none => none
    | some a => some (l ++ a)
  | none =>
    match getArgs c with
    | none => none
    | some a => some a

/-- The value the normalisation produces when it does not raise:
`normCmdE c = some (normCmd c)` whenever `normCmdE c` is not `none`. -/
def normCmd (c : SrvConfig) : List String :=
  match c.command with
  | none => (getArgs c).getD []
  | some (.str s) => s :: (getArgs c).getD []
  | some (.list l) => l ++ (getArgs c).getD []
  | some .other => []

/-- A global-scope server record (`MCPServerConfig` in models.py):
`command` is a required non-empty list of strings with a non-empty head,
`args` and `env` are optional. -/
structure GlobalSrv : Type where
  command : List String
  args : Option (List String) := none
  env : Option (Dict String) := none
deriving DecidableEq, Repr

/-- The `model_dump()` of a global record, as consumed by
`_build_master_server_list`. -/
def dumpGlobal (g : GlobalSrv) : SrvConfig :=
  { command := some (.list g.command)
    args := some (match g.args with | none => .nullV | some l => .list l)
    env := g.env, url := none }

inductive Source : Type
  | globalScope
  | projectScope
deriving DecidableEq, Repr

/-- One master-list entry: the config dict extended with its `_source` tag
(the tag is the only key ever injected, and it is popped off before any
comparison or write). -/
structure MasterEntry : Type where
  config : SrvConfig
  source : Source
deriving DecidableEq, Repr

/-! ### Master list construction (`SyncEngine._build_master_server_list`) -/

/-- Loop `for name, config in servers.items(): master[name] = f(name, config)`. -/
def dictInsertAll {α β : Type} (f : String → α → β) (init : Dict β) (l : Dict α) :
    Dict β :=
  l.foldl (fun acc p => dictInsert acc p.1 (f p.1 p.2)) init

def build_master_server_list (globalServers : Dict GlobalSrv)
    (projectServers : Option (Dict SrvConfig))
    (global_only project_only : Bool) : Dict MasterEntry :=
  let m : Dict MasterEntry :=
    if project_only then []
    else dictInsertAll (fun _ c => ⟨dumpGlobal c, .globalScope⟩) [] globalServers
  if global_only then m
  else
    match projectServers with
    | none => m
    | some ps => dictInsertAll (fun _ c => ⟨c, .projectScope⟩) m ps

/-! Lookup lemmas for the folds used to build dictionaries. -/

def lookupLast {α : Type} : Dict α → String → Option α
  | [], _ => none
  | p :: t, n =>
    match lookupLast t n with
    | some v => some v
    | none => if p.1 = n then some p.2 else none

/-! ### Substring search (Python `in` on strings) -/

def prefixAt : List Char → List Char → Bool
  | [], _ => true
  | _ :: _, [] => false
  | c :: cs, d :: ds => c = d && prefixAt cs ds

def infixSearch (pat : List Char) : List Char → Bool
  | [] => pat.isEmpty
  | d :: ds => prefixAt pat (d :: ds) || infixSearch pat ds

/-- Python `sub in t` substring containment. -/
def strContains (t sub : String) : Bool :=
  infixSearch sub.data t.data

/-- Replacement loop of Python `str.replace` (all non-overlapping
occurrences, left to right); the fuel argument is the length of the
remaining input, so each step consumes at least one character. -/
def replaceFuel (pat rep : List Char) : Nat → List Char → List Char
  | _, [] => []
  | 0, l => l
  | fuel + 1, c :: t =>
    if prefixAt pat (c :: t) then
      rep ++ replaceFuel pat rep fuel (List.drop (pat.length - 1) t)
    else c :: replaceFuel pat rep fuel t

/-- Python `s.replace(pat, rep)` for the non-empty literal placeholder
patterns the engine substitutes. -/
def pyReplace (s pat rep : String) : String :=
  if pat = "" then s
  else String.mk (replaceFuel pat.data rep.data s.data.length s.data)

/-- Whitespace stripped by Python `str.strip()`. -/
def isPySpace (c : Char) : Bool :=
  c = ' ' || c = '\t' || c = '\n' || c = '\r' || c = '\x0b' || c = '\x0c'

/-- Python `s.strip()`. -/
def pyStrip (s : String) : String :=
  String.mk (((s.data.dropWhile isPySpace).reverse.dropWhile isPySpace).reverse)

/-- Python `s.startswith(pre)`. -/
def strStartsWith (s pre : String) : Bool :=
  prefixAt pre.data s.data

/-- Python `s.endswith(suff)`. -/
def strEndsWith (s suff : String) : Bool :=
  prefixAt suff.data.reverse s.data.reverse

/-! ### POSIX tokenisation (`shlex.split`)

`shlexSplit` models `shlex.split(s)` (POSIX mode, comments off):
whitespace separates tokens, single quotes are fully literal, double
quotes are literal except that a backslash escapes the backslash and the
double quote (and is otherwise kept), and outside quotes a backslash
makes the next character literal.  An unterminated quote or a trailing
escape raises `ValueError`, modelled as `none`. -/

inductive ShMode : Type
  | norm
  | esc
  | quote1
  | quote2
  | quote2esc

def isShWhitespace (c : Char) : Bool :=
  c = ' ' || c = '\t' || c = '\r' || c = '\n'

def shlexGo : List Char → ShMode → List Char → Bool → List String →
    Option (List String)
  | [], mode, cur, inWord, acc =>
    match mode with
    | .norm => some (acc ++ if inWord then [String.mk cur] else [])
    | _ => none
  | c :: t, .norm, cur, inWord, acc =>
    if isShWhitespace c then
      if inWord then shlexGo t .norm [] false (acc ++ [String.mk cur])
      else shlexGo t .norm cur inWord acc
    else if c = '\'' then shlexGo t .quote1 cur true acc
    else if c = '"' then shlexGo t .quote2 cur true acc
    else if c = '\\' then shlexGo t .esc cur true acc
    else shlexGo t .norm (cur ++ [c]) true acc
  | c :: t, .esc, cur, _, acc => shlexGo t .norm (cur ++ [c]) true acc
  | c :: t, .quote1, cur, inWord, acc =>
    if c = '\'' then shlexGo t .norm cur inWord acc
    else shlexGo t .quote1 (cur ++ [c]) inWord acc
  | c :: t, .quote2, cur, inWord, acc =>
    if c = '"' then shlexGo t .norm cur inWord acc
    else if c = '\\' then shlexGo t .quote2esc cur inWord acc
    else shlexGo t .quote2 (cur ++ [c]) inWord acc
  | c :: t, .quote2esc, cur, inWord, acc =>
    if c = '"' || c = '\\' then shlexGo t .quote2 (cur ++ [c]) inWord acc
    else shlexGo t .quote2 (cur ++ ['\\', c]) inWord acc

def shlexSplit (s : String) : Option (List String) :=
  shlexGo s.data .norm [] false []

/-! ### CLI executor (`mcp_sync.clients.executor.CLIExecutor`) -/

/-- The slice of `MCPClientConfig` (models.py) the executor reads. -/
structure MCPClientConfig : Type where
  config_type : String := "file"
  cli_commands : Option (Dict String) := none
deriving DecidableEq, Repr

/-- Outcome of one `subprocess.run` call, as observed by the executor. -/
inductive ProcOutcome : Type
  | timeout
  | err
  | exit (code : Int) (stdout : String)
deriving DecidableEq, Repr

/-- `CLIExecutor._validate_command_name`: non-empty string matching
`re.match(r"^[a-zA-Z0-9_.-]+$", command)`. -/
def validate_command_name (command : String) : Bool :=
  if command = "" then false
  else pyMatchClass cmdNameChar command

def envKeyFirst (c : Char) : Bool := c.isAlpha || c = '_'

def envKeyRest (c : Char) : Bool := c.isAlphanum || c = '_'

/-- The environment-flag loop of `add_mcp_server`: keys matching
`^[a-zA-Z_][a-zA-Z0-9_]*$` contribute `-e KEY=VALUE`, other keys are
dropped. -/
def build_env_flags (env_vars : Dict String) : List String :=
  env_vars.foldl (fun acc p =>
    if pyMatch1 envKeyFirst envKeyRest p.1 then acc ++ ["-e", p.1 ++ "=" ++ p.2]
    else acc) []

/-- One iteration of the template-part substitution loop of
`add_mcp_server` (the `elif` chain, first matching placeholder wins). -/
def substTemplatePart (scope name : String) (env_flags : List String)
    (command : List String) (part : String) : List String :=
  if strContains part "{scope}" then [pyReplace part "{scope}" scope]
  else if strContains part "{transport}" then [pyReplace part "{transport}" "stdio"]
  else if strContains part "{env_flags}" then env_flags
  else if strContains part "{name}" then [pyReplace part "{name}" name]
  else if strContains part "{command}" then [pyReplace part "{command}" (command.headD "")]
  else if strContains part "{args}" then command.tail
  else if strContains part "{command_args}" then "--" :: command
  else [part]

inductive AddOutcome : Type
  | refused
  | spawned (argv : List String)
deriving DecidableEq, Repr

/-- `CLIExecutor.add_mcp_server` up to the `subprocess.run` call: either it
returns `False` before spawning anything (`refused`), or it spawns the
fully built argument vector (`spawned`).  A `ValueError` from
`shlex.split` on the template is caught and surfaces as `False`, hence
`refused`. -/
def add_mcp_server (client_id : String) (cfg : MCPClientConfig) (name : String)
    (command : List String) (env_vars : Dict String) (scope : String) :
    AddOutcome :=
  if client_id = "" then .refused
  else if name = "" then .refused
  else if !pyMatchClass srvNameChar name then .refused
  else if command = [] then .refused
  else if command.headD "" = "" then .refused
  else if (["local", "user", "project"].contains scope) = false then .refused
  else if cfg.config_type ≠ "cli" then .refused
  else
    match cfg.cli_commands with
    | none => .refused
    | some cmds =>
      if cmds = [] then .refused
      else
        match dictLookup cmds "add_mcp" with
        | none => .refused
        | some add_template =>
          if add_template = "" then .refused
          else if !validate_command_name (command.headD "") then .refused
          else
            match shlexSplit add_template with
            | none => .refused
            | some template_parts =>
              let env_flags := build_env_flags env_vars
              let cmd_parts := template_parts.foldl
                (fun acc part => acc ++ substTemplatePart scope name env_flags command part) []
              .spawned (cmd_parts.filter (fun part => part ≠ "" && pyStrip part ≠ ""))

/-- Whether `CLIExecutor.remove_mcp_server` passes every validation and
reaches the `subprocess.run` call of the remove template (scope detection
always yields one of the three valid scopes after the clamp, so it cannot
block the removal). -/
def remove_reaches_spawn (client_id : String) (cfg : MCPClientConfig)
    (name : String) : Bool :=
  client_id ≠ "" &&
  name ≠ "" && pyMatchClass srvNameChar name &&
  cfg.config_type = "cli" &&
  (match cfg.cli_commands with
   | none => false
   | some cmds =>
     cmds ≠ [] &&
     (match dictLookup cmds "remove_mcp" with
      | none => false
      | some tmpl => tmpl ≠ "" && (shlexSplit tmpl).isSome))

/-- Whether `CLIExecutor.get_mcp_servers` passes every validation and
reaches the `subprocess.run` call of the list template. -/
def get_reaches_spawn (client_id : String) (cfg : MCPClientConfig) : Bool :=
  client_id ≠ "" &&
  cfg.config_type = "cli" &&
  (match cfg.cli_commands with
   | none => false
   | some cmds =>
     cmds ≠ [] &&
     (match dictLookup cmds "list_mcp" with
      | none => false
      | some tmpl =>
        tmpl ≠ "" &&
        (match shlexSplit tmpl with
         | none => false
         | some parts => parts ≠ [] && validate_command_name (parts.headD ""))))

/-- `CLIExecutor._detect_server_scope`: the returned scope as a function
of the inputs and of the observed outcome of the spawned get command. -/
def detect_server_scope (client_id : String) (cfg : MCPClientConfig)
    (name : String) (run : ProcOutcome) : String :=
  if client_id = "" then "local"
  else if name = "" then "local"
  else if !pyMatchClass srvNameChar name then "local"
  else if cfg.config_type ≠ "cli" then "local"
  else
    match cfg.cli_commands with
    | none => "local"
    | some cmds =>
      if cmds = [] then "local"
      else
        match dictLookup cmds "get_mcp" with
        | none => "local"
        | some tmpl =>
          if tmpl = "" then "local"
          else
            match shlexSplit tmpl with
            | none => "local"
            | some _ =>
              match run with
              | .exit 0 out =>
                let output := pyLower out
                if strContains output "scope: user" then "user"
                else if strContains output "scope: project" then "project"
                else if strContains output "scope: local" then "local"
                else "local"
              | _ => "local"

/-! ### CLI store model

A CLI-managed client is modelled as a store mapping server names to the
argv the tool was told to launch (`CliState`).  A successfully spawned
add invocation records the full command vector under the name, a
successfully spawned remove invocation deletes the name, and the list
command renders each entry as a `name: command-line` line, which
`get_mcp_servers` parses back (dropping entries whose name fails the
`^[a-zA-Z0-9_-]+$` check) into records holding only a `command` key. -/

abbrev CliState := Dict (List String)

/-- The parsed result of the list command, as produced by
`CLIExecutor.get_mcp_servers` on a faithful listing of the store. -/
def cli_get (st : CliState) : Dict SrvConfig :=
  (st.filter (fun p => pyMatchClass srvNameChar p.1)).map
    (fun p => (p.1, { command := some (.list p.2) }))

def executor_get (st : CliState) (client_id : String) (cfg : MCPClientConfig) :
    Option (Dict SrvConfig) :=
  if get_reaches_spawn client_id cfg then some (cli_get st) else none

def executor_add (st : CliState) (client_id : String) (cfg : MCPClientConfig)
    (name : String) (command : List String) (env_vars : Dict String) :
    CliState × Bool :=
  match add_mcp_server client_id cfg name command env_vars "local" with
  | .refused => (st, false)
  | .spawned _ => (dictInsert st name command, true)

def executor_remove (st : CliState) (client_id : String) (cfg : MCPClientConfig)
    (name : String) : CliState × Bool :=
  if remove_reaches_spawn client_id cfg name then (dictErase st name, true)
  else (st, false)

/-! ### Reconciliation results (`SyncResult` and its entries) -/

/-- One conflict record.  File-based conflicts carry four keys; CLI-based
conflicts additionally carry the compared command vectors (`current` is
the raw `config.get("command", [])` value, `master` the normalised master
argv). -/
structure Conflict : Type where
  server : String
  location : String
  action : String := "overridden"
  source : Source
  current : Option CmdVal := none
  master : Option (List String) := none
deriving DecidableEq, Repr

structure SyncError : Type where
  location : String
  error : String
deriving DecidableEq, Repr

structure SyncResult : Type where
  updated_locations : List String
  conflicts : List Conflict
  errors : List SyncError
  dry_run : Bool
deriving Repr

/-! ### File-store reconciliation (`SyncEngine._sync_location`, file branch)

The single Python loop over the current servers accumulates the retained
map (entries absent from the master list) and the conflict list
independently, so it is split into two folds. -/

def retained_servers (current_servers : Dict SrvConfig)
    (master : Dict MasterEntry) : Dict SrvConfig :=
  current_servers.foldl
    (fun acc p => if dictMem master p.1 then acc else dictInsert acc p.1 p.2) []

def override_conflicts (path : String) (current_servers : Dict SrvConfig)
    (master : Dict MasterEntry) : List Conflict :=
  current_servers.foldl (fun acc p =>
    match dictLookup master p.1 with
    | none => acc
    | some e =>
      if p.2 ≠ e.config
      then acc ++ [{ server := p.1, location := path, source := e.source }]
      else acc) []

structure FileSyncOut : Type where
  new_servers : Dict SrvConfig
  conflicts : List Conflict
  updated : Bool
deriving Repr

def sync_location_file (path : String) (current_servers : Dict SrvConfig)
    (master : Dict MasterEntry) : FileSyncOut :=
  let new_servers :=
    dictInsertAll (fun _ e => e.config) (retained_servers current_servers master)
      master
  { new_servers := new_servers
    conflicts := override_conflicts path current_servers master
    updated := !dictBEq current_servers new_servers }

/-! ### CLI-store reconciliation (`SyncEngine._sync_cli_location`) -/

/-- Truthiness of `config.get("url")`. -/
def urlTruthy (c : SrvConfig) : Bool :=
  match c.url with
  | none => false
  | some u => u ≠ ""

/-- Python comparison `config.get("command", []) != master_cmd` for a
CLI-listed config against a normalised master argv (an absent key
defaults to the empty list; a string or non-list value never equals a
list). -/
def cliCmdEq (c : SrvConfig) (masterCmd : List String) : Bool :=
  match c.command with
  | none => masterCmd = []
  | some (.str _) => false
  | some (.list l) => l = masterCmd
  | some .other => false

/-- The conflict loop of `_sync_cli_location` (sync.py:228-255): for every
currently listed server whose name is in the master list, normalise the
master record's command and compare it with the listed command, recording
a conflict on difference.  `none` models the `TypeError` the normalisation
raises (at the first such shared name, aborting the whole location). -/
def cli_conflict_step (path : String) (master : Dict MasterEntry)
    (acc : Option (List Conflict)) (p : String × SrvConfig) :
    Option (List Conflict) :=
  match acc with
  | none => none
  | some cs =>
    match dictLookup master p.1 with
    | none => some cs
    | some e =>
      match normCmdE e.config with
      | none => none
      | some master_cmd =>
        if cliCmdEq p.2 master_cmd then some cs
        else some (cs ++ [{ server := p.1, location := path,
                            source := e.source,
                            current := some (p.2.command.getD (.list [])),
                            master := some master_cmd }])

def cli_conflicts (path : String) (current_servers : Dict SrvConfig)
    (master : Dict MasterEntry) : Option (List Conflict) :=
  current_servers.foldl (cli_conflict_step path master) (some [])

/-- The inner loop of the `changes_needed` computation (sync.py:283-298),
entered only when the command-bearing key sets agree: walk the new
servers in order, normalise each (possibly raising, modelled as `none`)
and stop at the first one whose normalised command differs from the
listed command. -/
def cli_changes_loop (current_command_servers : Dict SrvConfig) :
    List (String × SrvConfig) → Option Bool
  | [] => some false
  | p :: t =>
    match dictLookup current_command_servers p.1 with
    | some c =>
      match normCmdE p.2 with
      | none => none
      | some new_cmd =>
        if cliCmdEq c new_cmd then cli_changes_loop current_command_servers t
        else some true
    | none => some true

/-- The `changes_needed` computation: the command-bearing key sets differ,
or the inner comparison loop finds a difference (or raises, `none`). -/
def cli_changes_needed (current_servers new_servers : Dict SrvConfig) :
    Option Bool :=
  let current_command_servers := current_servers.filter (fun p => !urlTruthy p.2)
  let new_command_servers := new_servers.filter (fun p => !urlTruthy p.2)
  if keySetEq current_command_servers new_command_servers then
    cli_changes_loop current_command_servers new_command_servers
  else some true

/-- The non-dry-run application: remove every currently listed server
whose name is absent from `new_servers`, then walk `new_servers` in
order. -/
def cli_remove_step (client_id : String) (cfg : MCPClientConfig)
    (new_servers : Dict SrvConfig) (acc : CliState) (p : String × SrvConfig) :
    CliState :=
  if dictMem new_servers p.1 then acc
  else (executor_remove acc client_id cfg p.1).1

/-- The add walk of `cli_apply` (sync.py:309-343): each entry is skipped
when the raw listed config already equals it or when it carries a URL;
otherwise its command is normalised — raising the `TypeError` (second
component `true`) when the `args` key holds `null`, which aborts the walk
with the store as mutated so far — and, when the normalised command is
non-empty, the add invocation runs. -/
def cli_add_walk (client_id : String) (cfg : MCPClientConfig)
    (current_servers : Dict SrvConfig) :
    CliState → List (String × SrvConfig) → CliState × Bool
  | st, [] => (st, false)
  | st, p :: t =>
    if dictLookup current_servers p.1 = some p.2 then
      cli_add_walk client_id cfg current_servers st t
    else if urlTruthy p.2 then
      cli_add_walk client_id cfg current_servers st t
    else
      match normCmdE p.2 with
      | none => (st, true)
      | some full_command =>
        if full_command = [] then cli_add_walk client_id cfg current_servers st t
        else cli_add_walk client_id cfg current_servers
          (executor_add st client_id cfg p.1 full_command (p.2.env.getD [])).1 t

/-- The state action of one raise-free add-walk step
(`cli_add_walk_eq_fold` below relates the walk to a fold of this step
when no entry raises). -/
def cli_add_step (client_id : String) (cfg : MCPClientConfig)
    (current_servers : Dict SrvConfig) (acc : CliState) (p : String × SrvConfig) :
    CliState :=
  if dictLookup current_servers p.1 = some p.2 then acc
  else if urlTruthy p.2 then acc
  else if normCmd p.2 = [] then acc
  else (executor_add acc client_id cfg p.1 (normCmd p.2) (p.2.env.getD [])).1

def cli_apply (st : CliState) (client_id : String) (cfg : MCPClientConfig)
    (current_servers new_servers : Dict SrvConfig) : CliState × Bool :=
  let st1 := current_servers.foldl (cli_remove_step client_id cfg new_servers) st
  cli_add_walk client_id cfg current_servers st1 new_servers

/-- The observable effect of the add walk on the store entry of one
`new_servers` record: unchanged when the raw stored config already equals
it, when it carries a URL, when its normalised command is empty, or when
`add_mcp_server` refuses; otherwise the entry becomes the normalised
command vector. -/
def addEffect (client_id : String) (cfg : MCPClientConfig)
    (current_servers : Dict SrvConfig) (p : String × SrvConfig)
    (prev : Option (List String)) : Option (List String) :=
  if dictLookup current_servers p.1 = some p.2 then prev
  else if urlTruthy p.2 then prev
  else if normCmd p.2 = [] then prev
  else
    match add_mcp_server client_id cfg p.1 (normCmd p.2) (p.2.env.getD [])
      "local" with
    | .refused => prev
    | .spawned _ => some (normCmd p.2)

/-- Whether the removal walk erases the store entry named `n`: some
currently listed server has that name, is absent from `new_servers`, and
the remove invocation passes validation. -/
def removedBy (client_id : String) (cfg : MCPClientConfig)
    (current_servers new_servers : Dict SrvConfig) (n : String) : Bool :=
  current_servers.any (fun p =>
    p.1 = n && !dictMem new_servers p.1 &&
    remove_reaches_spawn client_id cfg p.1)

/-- Outcome of `_sync_cli_location`: a normal return with the post-run
store, the conflicts and whether the location is recorded as updated, or
a raised `TypeError` with the store as mutated up to the raise (the
executor invocations already made persist in the external tool). -/
inductive CliSyncOut : Type
  | ok (st : CliState) (conflicts : List Conflict) (updated : Bool)
  | raised (st : CliState) (msg : String)
deriving DecidableEq, Repr

def cliOutState : CliSyncOut → CliState
  | .ok st _ _ => st
  | .raised st _ => st

def cliOutUpdated : CliSyncOut → Bool
  | .ok _ _ u => u
  | .raised _ _ => false

/-- `SyncEngine._sync_cli_location` as a transformer of the CLI store
state: the conflict loop runs first (and can raise), then the
`changes_needed` computation (which can raise), and only then — outside
dry runs — the remove pass and the add walk (which can raise after
mutating the store). -/
def sync_cli_location (path client_id : String) (cfg : MCPClientConfig)
    (st : CliState) (master : Dict MasterEntry) (dry_run : Bool) :
    CliSyncOut :=
  let current_servers := (executor_get st client_id cfg).getD []
  match cli_conflicts path current_servers master with
  | none => .raised st typeErrMsg
  | some conflicts =>
    let new_servers := dictInsertAll (fun _ e => e.config) [] master
    match cli_changes_needed current_servers new_servers with
    | none => .raised st typeErrMsg
    | some changes_needed =>
      if changes_needed then
        if dry_run then .ok st conflicts true
        else
          match cli_apply st client_id cfg current_servers new_servers with
          | (st2, true) => .raised st2 typeErrMsg
          | (st2, false) => .ok st2 conflicts true
      else .ok st conflicts false

/-! ### Locations and `sync_all`

A registered location is modelled together with the state of the store it
denotes: for a file-based location the parsed `mcpServers` map of its
document (`none` when the file is missing or malformed) plus an optional
injected write failure (an `OSError` raised by `mkdir`/`open`/`dump`);
for a CLI location the client definition found for its client id (`none`
when `client_definitions.clients.get` finds nothing) and the external
store state. -/

structure Loc : Type where
  path : String
  name : String
  config_type : String := "file"
  fileServers : Option (Dict SrvConfig) := none
  writeError : Option String := none
  client : Option MCPClientConfig := none
  cliState : CliState := []

def locIsCli (loc : Loc) : Bool :=
  loc.config_type = "cli" || strStartsWith loc.path "cli:"

def locClientId (loc : Loc) : String :=
  if strStartsWith loc.path "cli:" then pyReplace loc.path "cli:" "" else loc.name

/-- `loc.get("scope")`: the dumped `LocationConfig` has no `scope` field,
so this is always `None` and the global/project scope filters of
`_get_sync_locations` never exclude anything. -/
def locScope (_ : Loc) : Option String := none

structure LocOutcome : Type where
  loc : Loc
  updated : Bool
  conflicts : List Conflict
  errors : List SyncError

/-- `SyncEngine._sync_location`: dispatches on the location kind.  An
unreadable file store appends an error and stops; a write failure raises
(the exception is caught by `sync_all`).  The returned location carries
the new store state.  When the CLI branch raises, the erroring location
is reported through `.error` and `sync_all` keeps its registered entry
as is; the store mutations the executor made before the raise
(`CliSyncOut.raised`'s state) are dropped here, and no statement below
depends on the store state of a raising CLI location. -/
def sync_location (loc : Loc) (master : Dict MasterEntry) (dry_run : Bool) :
    Except String LocOutcome :=
  if locIsCli loc then
    match loc.client with
    | none => .ok ⟨loc, false, [], []⟩
    | some cfg =>
      match sync_cli_location loc.path (locClientId loc) cfg loc.cliState master
        dry_run with
      | .ok st conflicts updated =>
        .ok ⟨{ loc with cliState := st }, updated, conflicts, []⟩
      | .raised _ msg => .error msg
  else
    match loc.fileServers with
    | none => .ok ⟨loc, false, [], [⟨loc.path, "Failed to read config"⟩]⟩
    | some current_servers =>
      let out := sync_location_file loc.path current_servers master
      if out.updated then
        if dry_run then .ok ⟨loc, true, out.conflicts, []⟩
        else
          match loc.writeError with
          | some msg => .error msg
          | none =>
            .ok ⟨{ loc with fileServers := some out.new_servers }, true,
                 out.conflicts, []⟩
      else .ok ⟨loc, false, out.conflicts, []⟩

/-- `SyncEngine._get_sync_locations`: a specific location (by path or
name) bypasses every filter and returns the first match; otherwise
locations whose path ends in `.mcp.json` are dropped, and the scope
filters compare the absent `scope` key against `"project"`/`"global"`. -/
def get_sync_locations (locations : List Loc) (specific : Option String)
    (global_only project_only : Bool) : List Loc :=
  match specific with
  | some s =>
    match locations.find? (fun loc => loc.path = s || loc.name = s) with
    | some loc => [loc]
    | none => []
  | none =>
    locations.filter (fun loc =>
      !(strEndsWith loc.path ".mcp.json") &&
      !(global_only && locScope loc = some "project") &&
      !(project_only && locScope loc = some "global"))

/-- The world a run operates on: the global scope, the project scope
(`None` when no `.mcp.json` exists in the working directory) and the
registered locations with their store states. -/
structure World : Type where
  globalServers : Dict GlobalSrv
  projectServers : Option (Dict SrvConfig)
  locations : List Loc

/-- The per-location loop of `sync_all` (with its `try`/`except`): a
raising location contributes an error entry and every later location is
still processed.  Returns the post-run locations and the accumulated
updated/conflict/error lists in processing order. -/
def sync_locs (master : Dict MasterEntry) (dry_run : Bool) (sel : Loc → Bool) :
    List Loc → List Loc × List String × List Conflict × List SyncError
  | [] => ([], [], [], [])
  | loc :: t =>
    let rest := sync_locs master dry_run sel t
    if sel loc then
      match sync_location loc master dry_run with
      | .ok out =>
        (out.loc :: rest.1,
         (if out.updated then [loc.path] else []) ++ rest.2.1,
         out.conflicts ++ rest.2.2.1,
         out.errors ++ rest.2.2.2)
      | .error msg =>
        (loc :: rest.1, rest.2.1, rest.2.2.1, ⟨loc.path, msg⟩ :: rest.2.2.2)
    else (loc :: rest.1, rest.2.1, rest.2.2.1, rest.2.2.2)

/-- The variant of the loop used with a specific location: only the first
matching location is synced (the list returned by
`_get_sync_locations` holds just that one). -/
def sync_locs_first (master : Dict MasterEntry) (dry_run : Bool)
    (matchLoc : Loc → Bool) :
    List Loc → List Loc × List String × List Conflict × List SyncError
  | [] => ([], [], [], [])
  | loc :: t =>
    if matchLoc loc then
      match sync_location loc master dry_run with
      | .ok out =>
        (out.loc :: t,
         (if out.updated then [loc.path] else []), out.conflicts, out.errors)
      | .error msg => (loc :: t, [], [], [⟨loc.path, msg⟩])
    else
      let rest := sync_locs_first master dry_run matchLoc t
      (loc :: rest.1, rest.2)

/-- The filter predicate of `_get_sync_locations` when no specific
location is requested. -/
def syncSelect (global_only project_only : Bool) (loc : Loc) : Bool :=
  !(strEndsWith loc.path ".mcp.json") &&
  !(global_only && locScope loc = some "project") &&
  !(project_only && locScope loc = some "global")

/-- `SyncEngine.sync_all`: builds the master list, selects the locations
and reconciles each in order, accumulating updates, conflicts and
errors. -/
def sync_all (w : World) (dry_run global_only project_only : Bool)
    (specific : Option String) : SyncResult × World :=
  let master :=
    build_master_server_list w.globalServers w.projectServers global_only
      project_only
  let run :=
    match specific with
    | none => sync_locs master dry_run (syncSelect global_only project_only)
        w.locations
    | some s => sync_locs_first master dry_run
        (fun loc => loc.path = s || loc.name = s) w.locations
  (⟨run.2.1, run.2.2.1, run.2.2.2, dry_run⟩,
   { w with locations := run.1 })

/-! ### Vacuum import (`SyncEngine.vacuum_configs`) -/

/-- Python `Path(p).name` for the simple POSIX paths the engine
handles. -/
def splitSlash : List Char → List (List Char)
  | [] => [[]]
  | c :: t =>
    match splitSlash t with
    | [] => [[]]
    | h :: r => if c = '/' then [] :: h :: r else (c :: h) :: r

def pathName (p : String) : String :=
  ((((splitSlash p.data).filter (fun s => s ≠ [])).getLast?).map String.mk).getD ""

structure Discovered : Type where
  config : SrvConfig
  source : String
deriving DecidableEq, Repr

structure VacConflict : Type where
  server : String
  chosen_source : String
  rejected_source : String
deriving DecidableEq, Repr

inductive Choice : Type
  | keepExisting
  | keepNew
deriving DecidableEq, Repr

/-- A resolution strategy standing for the interactive chooser
`_resolve_conflict` (which loops on `input()` until a 1/2 answer). -/
abbrev Chooser := String → SrvConfig → String → SrvConfig → String → Choice

/-- Processing of one discovered server inside the vacuum scan: a fresh
name is recorded with its source; a colliding name is resolved by the
auto-resolve policy or the interactive chooser, recording a conflict
entry with the chosen and rejected sources.  The `Nat` component counts
interactive-chooser invocations. -/
def vacuum_scan_server (auto_resolve : Option String) (chooser : Chooser)
    (locName : String) (acc : Dict Discovered × List VacConflict × Nat)
    (server_name : String) (server_config : SrvConfig) :
    Dict Discovered × List VacConflict × Nat :=
  match dictLookup acc.1 server_name with
  | some existing =>
    let pick : Choice × Nat :=
      if auto_resolve = some "first" then (.keepExisting, 0)
      else if auto_resolve = some "last" then (.keepNew, 0)
      else (chooser server_name existing.config existing.source server_config
        locName, 1)
    match pick.1 with
    | .keepNew =>
      (dictInsert acc.1 server_name ⟨server_config, locName⟩,
       acc.2.1 ++ [⟨server_name, locName, existing.source⟩],
       acc.2.2 + pick.2)
    | .keepExisting =>
      (acc.1,
       acc.2.1 ++ [⟨server_name, existing.source, locName⟩],
       acc.2.2 + pick.2)
  | none =>
    (dictInsert acc.1 server_name ⟨server_config, locName⟩, acc.2.1, acc.2.2)

/-- The scan phase of `vacuum_configs`: walk every registered location in
order; CLI locations contribute their listed servers, file locations
their `mcpServers` map, except files named `.mcp.json` and unreadable
files, which are skipped. -/
def vacuum_scan_loc (auto_resolve : Option String) (chooser : Chooser)
    (acc : Dict Discovered × List VacConflict × Nat) (loc : Loc) :
    Dict Discovered × List VacConflict × Nat :=
  if locIsCli loc then
    match loc.client with
    | none => acc
    | some cfg =>
      match executor_get loc.cliState (locClientId loc) cfg with
      | none => acc
      | some cli_servers =>
        if cli_servers = [] then acc
        else cli_servers.foldl
          (fun a p => vacuum_scan_server auto_resolve chooser loc.name a p.1 p.2)
          acc
  else
    if pathName loc.path = ".mcp.json" then acc
    else
      match loc.fileServers with
      | none => acc
      | some servers =>
        servers.foldl
          (fun a p => vacuum_scan_server auto_resolve chooser loc.name a p.1 p.2)
          acc

def vacuum_scan (auto_resolve : Option String) (chooser : Chooser)
    (locations : List Loc) : Dict Discovered × List VacConflict × Nat :=
  locations.foldl (vacuum_scan_loc auto_resolve chooser) ([], [], 0)

/-- `MCPServerConfig(**config_data)` after the string-to-list command
normalisation of the import loop: fails (pydantic `ValidationError`)
when `command` is missing, not a string or list, an empty list, or has an
empty first element. -/
def mkMCPServerConfig (c : SrvConfig) : Option GlobalSrv :=
  let a : Option (List String) :=
    match c.args with
    | some (.list l) => some l
    | _ => none
  match c.command with
  | some (.str s) => if s = "" then none else some ⟨[s], a, c.env⟩
  | some (.list l) =>
    if l = [] then none
    else if l.headD "" = "" then none
    else some ⟨l, a, c.env⟩
  | _ => none

/-- The import phase of `vacuum_configs`: write every discovered server
into the global scope, skipping names already present when
`skip_existing` is set, skipping URL-only records, and converting
records the config model rejects into error entries.  Returns the new
global map, the imported name-to-source map, the skipped names and the
errors. -/
def vacuum_import_step (skip_existing : Bool)
    (acc : Dict GlobalSrv × Dict String × List String × List SyncError)
    (p : String × Discovered) :
    Dict GlobalSrv × Dict String × List String × List SyncError :=
  if skip_existing && dictMem acc.1 p.1 then
    (acc.1, acc.2.1, acc.2.2.1 ++ [p.1], acc.2.2.2)
  else if p.2.config.url.isSome && p.2.config.command.isNone then
    (acc.1, acc.2.1, acc.2.2.1 ++ [p.1], acc.2.2.2)
  else
    match mkMCPServerConfig p.2.config with
    | some gs =>
      (dictInsert acc.1 p.1 gs, dictInsert acc.2.1 p.1 p.2.source,
       acc.2.2.1, acc.2.2.2)
    | none =>
      (acc.1, acc.2.1, acc.2.2.1,
       acc.2.2.2 ++ [⟨p.2.source, "Failed to import " ++ p.1⟩])

def vacuum_import (discovered : Dict Discovered)
    (globalServers : Dict GlobalSrv) (skip_existing : Bool) :
    Dict GlobalSrv × Dict String × List String × List SyncError :=
  discovered.foldl (vacuum_import_step skip_existing) (globalServers, [], [], [])

structure VacuumResult : Type where
  imported_servers : Dict String
  conflicts : List VacConflict
  errors : List SyncError
  skipped_servers : List String
deriving Repr

/-- `SyncEngine.vacuum_configs` (after client auto-discovery, which only
extends the location registry): scan all locations, then import the
discovered servers into the global scope.  Also returns the new global
map and the number of interactive-chooser invocations. -/
def vacuum_configs (w : World) (auto_resolve : Option String)
    (skip_existing : Bool) (chooser : Chooser) :
    VacuumResult × Dict GlobalSrv × Nat :=
  let scan := vacuum_scan auto_resolve chooser w.locations
  let imp := vacuum_import scan.1 w.globalServers skip_existing
  (⟨imp.2.1, scan.2.1, imp.2.2.2, imp.2.2.1⟩, imp.1, scan.2.2)

/-! ### Statement-side definitions -/

/-- Whether a get-command output contains a recognised scope marker
(`scope: user|project|local`, case-insensitive). -/
def scopeMarkerPresent (out : String) : Bool :=
  let lowered := pyLower out
  strContains lowered "scope: user" || strContains lowered "scope: project" ||
  strContains lowered "scope: local"

/-- Whether `_detect_server_scope` bails out before spawning the get
command: missing or empty template, a template `shlex.split` rejects, a
non-CLI client, an invalid server name, or an invalid client id. -/
def detect_spawns_nothing (client_id : String) (cfg : MCPClientConfig)
    (name : String) : Bool :=
  client_id = "" || name = "" || !pyMatchClass srvNameChar name ||
  cfg.config_type ≠ "cli" ||
  (match cfg.cli_commands with
   | none => true
   | some cmds =>
     cmds = [] ||
     (match dictLookup cmds "get_mcp" with
      | none => true
      | some tmpl => tmpl = "" || (shlexSplit tmpl).isNone))

/-- The part of `remove_mcp_server`'s validation that depends only on the
client, not on the server name. -/
def client_remove_ready (client_id : String) (cfg : MCPClientConfig) : Bool :=
  client_id ≠ "" &&
  cfg.config_type = "cli" &&
  (match cfg.cli_commands with
   | none => false
   | some cmds =>
     cmds ≠ [] &&
     (match dictLookup cmds "remove_mcp" with
      | none => false
      | some tmpl => tmpl ≠ "" && (shlexSplit tmpl).isSome))

/-- A CLI client definition in the shape of the built-in `claude-code`
entry, used to instantiate theorems with hypotheses. -/
def sampleCliClient : MCPClientConfig :=
  { config_type := "cli"
    cli_commands := some
      [("list_mcp", "claude mcp list"),
       ("add_mcp", "claude mcp add -s {scope} {name} {command} {args}"),
       ("remove_mcp", "claude mcp remove -s {scope} {name}"),
       ("get_mcp", "claude mcp get {name}")] }

/-- A resolution strategy that always keeps the incumbent, standing for
one possible interactive session. -/
def keepFirstChooser : Chooser := fun _ _ _ _ _ => .keepExisting

/-- The server map the vacuum scan reads from a location, when it
contributes one: a CLI location's non-empty listing, or a readable file
store not named `.mcp.json`. -/
def locServerMap (loc : Loc) : Option (Dict SrvConfig) :=
  if locIsCli loc then
    match loc.client with
    | none => none
    | some cfg =>
      match executor_get loc.cliState (locClientId loc) cfg with
      | none => none
      | some servers => if servers = [] then none else some servers
  else if pathName loc.path = ".mcp.json" then none
  else loc.fileServers

/-- The earliest occurrence (config and source-location name) of a server
name across the locations in registration order. -/
def firstOccIn : List Loc → String → Option (SrvConfig × String)
  | [], _ => none
  | loc :: t, n =>
    match locServerMap loc with
    | some m =>
      (match dictLookup m n with
       | some c => some (c, loc.name)
       | none => firstOccIn t n)
    | none => firstOccIn t n

/-- The collision entries one store contributes under the first-wins
policy, given the map from already-seen names to their first source. -/
def storeCollisions (seen : Dict String) (locName : String)
    (m : Dict SrvConfig) : List VacConflict :=
  m.foldl (fun acc p =>
    match dictLookup seen p.1 with
    | some src => acc ++ [⟨p.1, src, locName⟩]
    | none => acc) []

/-- The seen-names map after one store: fresh names gain this store as
their first source. -/
def seenUpdate (seen : Dict String) (locName : String)
    (m : Dict SrvConfig) : Dict String :=
  m.foldl (fun acc p =>
    if dictMem acc p.1 then acc else dictInsert acc p.1 locName) seen

/-- The expected collision records of a first-wins scan: walking the
locations in order with a map from already-seen names to their first
source, every later occurrence of a seen name contributes one entry
keeping the incumbent. -/
def collisionList (seen : Dict String) : List Loc → List VacConflict
  | [] => []
  | loc :: t =>
    match locServerMap loc with
    | none => collisionList seen t
    | some m =>
      storeCollisions seen loc.name m ++
        collisionList (seenUpdate seen loc.name m) t

/-- The conditions under which one reconciliation run leaves a location in
a state the next run recognises as in sync: trivially true for file
stores and for CLI locations with no known client; a CLI location with a
known client needs a usable list command, a usable remove command and a
CLI-compatible master list (no URL transport, a command normalisation
that does not raise — i.e. no entry whose `args` key holds `null` while
its command is a string or list — valid server names, non-empty
normalised commands, adds that pass validation). -/
def locSyncIdemReady (master : Dict MasterEntry) (loc : Loc) : Bool :=
  if locIsCli loc then
    match loc.client with
    | none => true
    | some cfg =>
      decide (KeysNodup loc.cliState) &&
      get_reaches_spawn (locClientId loc) cfg &&
      client_remove_ready (locClientId loc) cfg &&
      master.all (fun p =>
        !urlTruthy p.2.config &&
        (normCmdE p.2.config).isSome &&
        pyMatchClass srvNameChar p.1 &&
        !(normCmd p.2.config).isEmpty &&
        decide (add_mcp_server (locClientId loc) cfg p.1 (normCmd p.2.config)
          (p.2.config.env.getD []) "local" ≠ .refused))
  else true

/-- A world with one reconcilable file location and one CLI location
whose master entries are all CLI-compatible, used to instantiate the
amended idempotence statement. -/
def c3SampleWorld : World :=
  { globalServers := [("srv1", { command := ["echo", "hi"], args := some [] })]
    projectServers := some [("proj", { command := some (.str "node") })]
    locations :=
      [{ path := "/home/u/conf.json", name := "conf",
         fileServers := some [("old", { command := some (.str "x") })] },
       { path := "cli:claude-code", name := "claude-code",
         config_type := "cli", client := some sampleCliClient }] }


/-! ## Theorems -/

theorem dictLookup_insert {α : Type} (d : Dict α) (k : String) (v : α) (n : String) :
    dictLookup (dictInsert d k v) n = if n = k then some v else dictLookup d n := by
  induction d with
  | nil =>
    by_cases h : n = k
    · subst h
      simp [dictInsert, dictLookup]
    · have hkn : ¬k = n := fun hc => h hc.symm
      simp [dictInsert, dictLookup, h, hkn]
  | cons p t ih =>
    simp only [dictInsert]
    by_cases hp : p.1 = k
    · rw [if_pos hp]
      simp only [dictLookup]
      by_cases h : n = k
      · rw [if_pos h.symm, if_pos h]
      · have hkn : ¬k = n := fun hc => h hc.symm
        have hpn : ¬p.1 = n := by rw [hp]; exact hkn
        rw [if_neg hkn, if_neg h]
        rw [if_neg hpn]
    · rw [if_neg hp]
      simp only [dictLookup, ih]
      by_cases hpn : p.1 = n
      · have hnk : ¬n = k := fun hc => hp (by rw [hpn, hc])
        rw [if_pos hpn, if_neg hnk, if_pos hpn]
      · rw [if_neg hpn]
        by_cases h : n = k <;> simp [h, hpn]

theorem mem_keys_of_dictLookup {α : Type} {d : Dict α} {n : String} {v : α}
    (h : dictLookup d n = some v) : n ∈ dictKeys d := by
  induction d with
  | nil => simp [dictLookup] at h
  | cons p t ih =>
    by_cases hp : p.1 = n
    · simp [dictKeys, hp]
    · simp only [dictLookup, if_neg hp] at h
      simp only [dictKeys, List.map_cons, List.mem_cons]
      exact Or.inr (ih h)

theorem dictBEq_refl {α : Type} [DecidableEq α] (a : Dict α) : dictBEq a a = true := by
  simp [dictBEq, List.all_eq_true]

theorem dictLookup_eq_none_of_not_mem {α : Type} {d : Dict α} {n : String}
    (h : n ∉ dictKeys d) : dictLookup d n = none := by
  cases hl : dictLookup d n with
  | none => rfl
  | some v => exact absurd (mem_keys_of_dictLookup hl) h

theorem dictLookup_isSome_of_mem_keys {α : Type} {d : Dict α} {n : String}
    (h : n ∈ dictKeys d) : (dictLookup d n).isSome := by
  induction d with
  | nil => simp [dictKeys] at h
  | cons p t ih =>
    by_cases hp : p.1 = n
    · simp [dictLookup, hp]
    · simp only [dictKeys, List.map_cons, List.mem_cons] at h
      rcases h with h | h

      · exact absurd h.symm hp
      · simp only [dictLookup, if_neg hp]
        exact ih h

theorem dictMem_iff_mem_keys {α : Type} (d : Dict α) (n : String) :
    dictMem d n = true ↔ n ∈ dictKeys d := by
  constructor
  · intro h
    cases hl : dictLookup d n with
    | none => simp [dictMem, hl] at h
    | some v => exact mem_keys_of_dictLookup hl
  · intro h
    simpa [dictMem] using dictLookup_isSome_of_mem_keys h

theorem dictMem_eq_false_iff {α : Type} (d : Dict α) (n : String) :
    dictMem d n = false ↔ n ∉ dictKeys d := by
  rw [← Bool.not_eq_true, not_iff_not]
  exact dictMem_iff_mem_keys d n

theorem dictInsert_eq_append {α : Type} {d : Dict α} {k : String} (v : α)
    (h : k ∉ dictKeys d) : dictInsert d k v = d ++ [(k, v)] := by
  induction d with
  | nil => rfl
  | cons p t ih =>
    simp only [dictKeys, List.map_cons, List.mem_cons, not_or] at h
    have hp : ¬p.1 = k := fun hc => h.1 hc.symm
    simp only [dictInsert, if_neg hp, List.cons_append]
    rw [ih h.2]

theorem dictKeys_insert {α : Type} (d : Dict α) (k : String) (v : α) :
    dictKeys (dictInsert d k v) =
      if k ∈ dictKeys d then dictKeys d else dictKeys d ++ [k] := by
  induction d with
  | nil => simp [dictInsert, dictKeys]
  | cons p t ih =>
    by_cases hp : p.1 = k
    · simp [dictInsert, hp, dictKeys]
    · simp only [dictInsert, if_neg hp, dictKeys, List.map_cons]
      simp only [dictKeys] at ih
      by_cases hk : k ∈ List.map (fun x => x.1) t
      · rw [ih, if_pos hk, if_pos (List.mem_cons_of_mem _ hk)]
      · have hkc : k ∉ p.1 :: List.map (fun x => x.1) t := by
          intro hc
          rcases List.mem_cons.mp hc with hc | hc
          · exact hp hc.symm
          · exact hk hc
        rw [ih, if_neg hk, if_neg hkc, List.cons_append]

theorem keysNodup_insert {α : Type} {d : Dict α} (k : String) (v : α)
    (h : KeysNodup d) : KeysNodup (dictInsert d k v) := by
  unfold KeysNodup at h ⊢
  rw [dictKeys_insert]
  by_cases hk : k ∈ dictKeys d
  · simpa [hk] using h
  · simp only [hk, if_false]
    simpa [List.nodup_append] using ⟨h, fun hc => hk hc⟩

theorem dictLookup_erase {α : Type} (d : Dict α) (k n : String)
    (hd : KeysNodup d) :
    dictLookup (dictErase d k) n = if n = k then none else dictLookup d n := by
  induction d with
  | nil => simp [dictErase, dictLookup]
  | cons p t ih =>
    have hcons : (p.1 :: dictKeys t).Nodup := hd
    have h1 : p.1 ∉ dictKeys t := (List.nodup_cons.mp hcons).1
    have h2 := ih (List.nodup_cons.mp hcons).2
    by_cases hp : p.1 = k
    · subst hp
      simp only [dictErase, if_pos rfl]
      by_cases hn : n = p.1
      · subst hn
        simp [dictLookup_eq_none_of_not_mem h1]
      · have hpn : ¬p.1 = n := fun hc => hn hc.symm
        simp [dictLookup, hn, hpn]
    · simp only [dictErase, if_neg hp, dictLookup, h2]
      by_cases hn : p.1 = n
      · have : ¬n = k := fun hc => hp (hn.trans hc)
        simp [hn, this]
      · simp [hn]

theorem dictKeys_erase_subset {α : Type} (d : Dict α) (k : String) :
    dictKeys (dictErase d k) ⊆ dictKeys d := by
  induction d with
  | nil => simp [dictErase]
  | cons p t ih =>
    by_cases hp : p.1 = k
    · simp only [dictErase, if_pos hp]
      intro x hx
      exact List.mem_cons_of_mem _ hx
    · simp only [dictErase, if_neg hp]
      intro x hx
      simp only [dictKeys, List.map_cons, List.mem_cons] at hx ⊢
      rcases hx with hx | hx
      · exact Or.inl hx
      · exact Or.inr (ih hx)

theorem keysNodup_erase {α : Type} {d : Dict α} (k : String)
    (h : KeysNodup d) : KeysNodup (dictErase d k) := by
  induction d with
  | nil => exact h
  | cons p t ih =>
    have hcons : (p.1 :: dictKeys t).Nodup := h
    have h1 := (List.nodup_cons.mp hcons).1
    have h2 := (List.nodup_cons.mp hcons).2
    by_cases hp : p.1 = k
    · simpa [dictErase, hp] using h2
    · simp only [dictErase, if_neg hp]
      exact List.nodup_cons.mpr ⟨fun hc => h1 (dictKeys_erase_subset t k hc), ih h2⟩

theorem lookupLast_eq_dictLookup {α : Type} (d : Dict α) (n : String)
    (h : KeysNodup d) : lookupLast d n = dictLookup d n := by
  induction d with
  | nil => rfl
  | cons p t ih =>
    have hcons : (p.1 :: dictKeys t).Nodup := h
    have h1 : p.1 ∉ dictKeys t := (List.nodup_cons.mp hcons).1
    have h2 := ih (List.nodup_cons.mp hcons).2
    simp only [lookupLast, dictLookup, h2]
    cases hlt : dictLookup t n with
    | none => cases hif : decide (p.1 = n) <;> simp_all
    | some v =>
      have hn : n ∈ dictKeys t := mem_keys_of_dictLookup hlt
      have hpn : ¬p.1 = n := fun hc => h1 (hc ▸ hn)
      simp [hpn]

theorem dictInsertAll_lookup {α β : Type} (l : Dict α) (f : String → α → β)
    (init : Dict β) (n : String) :
    dictLookup (dictInsertAll f init l) n =
      match lookupLast l n with
      | some v => some (f n v)
      | none => dictLookup init n := by
  induction l generalizing init with
  | nil => simp [lookupLast, dictInsertAll]
  | cons p t ih =>
    simp only [dictInsertAll, List.foldl_cons] at ih ⊢
    simp only [ih, lookupLast]
    cases hlt : lookupLast t n with
    | some v => simp
    | none =>
      simp [dictLookup_insert]
      by_cases he : p.1 = n
      · subst he; simp
      · simp [he, Ne.symm he]

/-! ### Claim C1 -/

/-- Claim C1 fails on the code: the executable token `"echo\n"` contains a
newline, which is outside `[A-Za-z0-9_.-]`, yet
`_validate_command_name` accepts it (Python `$` matches just before a
trailing newline, although the code comment says only alphanumerics,
hyphens, underscores and dots are allowed) and `add_mcp_server` proceeds
to spawn the add command instead of returning `False`. -/
theorem c1_trailing_newline_token_is_spawned :
    (∃ c ∈ "echo\n".data, cmdNameChar c = false) ∧
    validate_command_name "echo\n" = true ∧
    add_mcp_server "claude-code" sampleCliClient "srv1" ["echo\n", "hi"] []
        "local"
      = .spawned ["claude", "mcp", "add", "-s", "local", "srv1", "echo\n", "hi"] :=
  ⟨⟨'\n', by decide, by decide⟩, by decide, by decide⟩

/-! ### Claim C2 -/

/-- Claim C2: with both scopes included, a name defined in both the global
and the project scope resolves in the master list to exactly the project
record tagged `project` (whole-record replacement), and a name defined
only in the global scope keeps its dumped global record tagged
`global`. -/
theorem c2_project_scope_precedence (g : Dict GlobalSrv) (p : Dict SrvConfig)
    (name : String) (hg : KeysNodup g) (hp : KeysNodup p) :
    (∀ gc pc, dictLookup g name = some gc → dictLookup p name = some pc →
      dictLookup (build_master_server_list g (some p) false false) name
        = some ⟨pc, .projectScope⟩) ∧
    (∀ gc, dictLookup g name = some gc → dictLookup p name = none →
      dictLookup (build_master_server_list g (some p) false false) name
        = some ⟨dumpGlobal gc, .globalScope⟩) := by
  have hbuild : build_master_server_list g (some p) false false =
      dictInsertAll (fun _ c => ⟨c, .projectScope⟩)
        (dictInsertAll (fun _ c => ⟨dumpGlobal c, .globalScope⟩) [] g) p := rfl
  constructor
  · intro gc pc hgc hpc
    rw [hbuild, dictInsertAll_lookup, lookupLast_eq_dictLookup p name hp, hpc]
  · intro gc hgc hpc
    rw [hbuild, dictInsertAll_lookup, lookupLast_eq_dictLookup p name hp, hpc]
    simp only
    rw [dictInsertAll_lookup, lookupLast_eq_dictLookup g name hg, hgc]

/-- Witness for C2 at a concrete pair of scopes sharing the name `x`. -/
theorem c2_witness :
    dictLookup
      (build_master_server_list [("x", ⟨["g"], none, none⟩)]
        (some [("x", { command := some (.str "p") })]) false false) "x"
      = some ⟨{ command := some (.str "p") }, .projectScope⟩ :=
  (c2_project_scope_precedence [("x", ⟨["g"], none, none⟩)]
      [("x", { command := some (.str "p") })] "x" (by decide) (by decide)).1
    ⟨["g"], none, none⟩ { command := some (.str "p") } (by decide) (by decide)


/-! ### Claim C6 -/

/-- Claim C6: `_detect_server_scope` returns `local` for every outcome
whose output lacks a recognised `scope:` marker (empty output, non-zero
exit, timeout, subprocess error all satisfy the first hypothesis), and
likewise whenever no get command is spawned at all (missing or empty get
template, non-CLI client, invalid server name or client id). -/
theorem c6_detect_scope_defaults_to_local (client_id : String)
    (cfg : MCPClientConfig) (name : String) :
    (∀ run, (∀ out, run = .exit 0 out → scopeMarkerPresent out = false) →
      detect_server_scope client_id cfg name run = "local") ∧
    (∀ run, detect_spawns_nothing client_id cfg name = true →
      detect_server_scope client_id cfg name run = "local") := by
  constructor
  · intro run h
    unfold detect_server_scope
    repeat' split
    all_goals try rfl
    have hm := h _ rfl
    simp only [scopeMarkerPresent, Bool.or_eq_false_iff] at hm
    simp [hm.1.1, hm.1.2, hm.2]
  · intro run h
    unfold detect_spawns_nothing at h
    unfold detect_server_scope
    repeat' split
    all_goals try rfl
    all_goals simp_all

/-- Witness for C6: a non-zero exit whose output even mentions a scope
still resolves to `local`. -/
theorem c6_witness :
    detect_server_scope "claude-code" sampleCliClient "srv"
      (.exit 1 "Scope: user") = "local" :=
  (c6_detect_scope_defaults_to_local "claude-code" sampleCliClient "srv").1
    (.exit 1 "Scope: user")
    (by
      intro out h
      injection h with h1 h2
      exact absurd h1 (by decide))

/-! ### Claim C4 -/

/-- Claim C4: reconciling a file store holding `{a: cmdOld, b: cmdLocal}`
against the master list `{a: cmd1}` (with `cmdOld` differing from
`cmd1`) yields exactly `{a: cmd1, b: cmdLocal}` — the store-local entry
`b` is retained unchanged, the master entry overwrites `a` — with exactly
one conflict recorded for `a` and the store marked updated. -/
theorem c4_file_reconcile_scenario (cmdOld cmd1 cmdLocal : SrvConfig)
    (src : Source) (path : String) (hne : cmdOld ≠ cmd1) :
    let out := sync_location_file path [("a", cmdOld), ("b", cmdLocal)]
      [("a", ⟨cmd1, src⟩)]
    dictLookup out.new_servers "a" = some cmd1 ∧
    dictLookup out.new_servers "b" = some cmdLocal ∧
    (∀ n, n ≠ "a" → n ≠ "b" → dictLookup out.new_servers n = none) ∧
    out.conflicts = [{ server := "a", location := path, source := src }] ∧
    out.updated = true := by
  intro out
  have hns : out.new_servers = [("b", cmdLocal), ("a", cmd1)] := rfl
  have hcf : out.conflicts =
      if cmdOld ≠ cmd1 then [{ server := "a", location := path, source := src }]
      else [] := rfl
  refine ⟨?_, ?_, ?_, ?_, ?_⟩
  · rw [hns]; simp [dictLookup]
  · rw [hns]; simp [dictLookup]
  · intro n h1 h2
    rw [hns]
    have hb : ¬("b" : String) = n := fun hc => h2 hc.symm
    have ha : ¬("a" : String) = n := fun hc => h1 hc.symm
    simp [dictLookup, hb, ha]
  · rw [hcf, if_pos hne]
  · show (!dictBEq [("a", cmdOld), ("b", cmdLocal)] out.new_servers) = true
    rw [hns]
    simp [dictBEq, dictLookup, Ne.symm hne]

/-- Witness for C4 at concrete configs. -/
theorem c4_witness :
    let out := sync_location_file "/tmp/a.json"
      [("a", { command := some (.list ["old"]) }),
       ("b", { command := some (.list ["loc"]) })]
      [("a", ⟨{ command := some (.list ["new"]) }, .globalScope⟩)]
    dictLookup out.new_servers "a" = some { command := some (.list ["new"]) } ∧
    dictLookup out.new_servers "b" = some { command := some (.list ["loc"]) } ∧
    (∀ n, n ≠ "a" → n ≠ "b" → dictLookup out.new_servers n = none) ∧
    out.conflicts = [{ server := "a", location := "/tmp/a.json",
                       source := .globalScope }] ∧
    out.updated = true :=
  c4_file_reconcile_scenario { command := some (.list ["old"]) }
    { command := some (.list ["new"]) } { command := some (.list ["loc"]) }
    .globalScope "/tmp/a.json" (by decide)

/-! ### Claim C10 -/

/-- Claim C10 fails on the code as stated: a registered file location
whose path ends in `.mcp.json` but whose basename is not exactly
`.mcp.json` (here `/a/custom.mcp.json`) IS a vacuum source — its server
is imported — because `vacuum_configs` skips only files whose
`Path(...).name` equals `.mcp.json`. -/
theorem c10_counterexample :
    strEndsWith "/a/custom.mcp.json" ".mcp.json" = true ∧
    (vacuum_configs
      ⟨[], none,
       [{ path := "/a/custom.mcp.json", name := "custom",
          fileServers := some [("s", { command := some (.list ["echo"]) })] }]⟩
      none false keepFirstChooser).1.imported_servers = [("s", "custom")] := by
  constructor
  · decide
  · decide

/-- Claim C10 amended: (i) with no specific location requested, the sync
filter drops every location whose path ends in `.mcp.json`; (ii) naming a
location explicitly bypasses the filter and returns the first match;
(iii) the vacuum scan skips exactly the file locations whose basename is
`.mcp.json` — such a location contributes nothing to the scan. -/
theorem c10_mcp_json_filtering :
    (∀ (locs : List Loc) (go po : Bool) (loc : Loc),
      loc ∈ get_sync_locations locs none go po →
      strEndsWith loc.path ".mcp.json" = false) ∧
    (∀ (locs : List Loc) (s : String) (go po : Bool) (loc : Loc),
      locs.find? (fun l => l.path = s || l.name = s) = some loc →
      get_sync_locations locs (some s) go po = [loc]) ∧
    (∀ (auto : Option String) (ch : Chooser) (pre post : List Loc) (loc : Loc),
      locIsCli loc = false → pathName loc.path = ".mcp.json" →
      vacuum_scan auto ch (pre ++ loc :: post) = vacuum_scan auto ch (pre ++ post)) := by
  refine ⟨?_, ?_, ?_⟩
  · intro locs go po loc hmem
    simp only [get_sync_locations, List.mem_filter] at hmem
    have h := hmem.2
    simp only [Bool.and_eq_true, Bool.not_eq_true'] at h
    exact h.1.1
  · intro locs s go po loc hf
    simp only [get_sync_locations, hf]
  · intro auto ch pre post loc hcli hname
    unfold vacuum_scan
    rw [List.foldl_append, List.foldl_append, List.foldl_cons]
    congr 1
    simp [vacuum_scan_loc, hcli, hname]

/-- Witness for the amended C10: a file store named `.mcp.json`
contributes nothing to a vacuum scan. -/
theorem c10_witness :
    vacuum_scan none keepFirstChooser
      [{ path := "/p/.mcp.json", name := "proj",
         fileServers := some [("s", { command := some (.list ["echo"]) })] }]
      = ([], [], 0) := by
  have h := c10_mcp_json_filtering.2.2 none keepFirstChooser [] []
    { path := "/p/.mcp.json", name := "proj",
      fileServers := some [("s", { command := some (.list ["echo"]) })] }
    (by decide) (by decide)
  simpa using h

/-! ### Claim C8 -/

/-- Facts about one step of the import loop with `skip_existing=True`,
relative to a name already present in the (evolving) global map: the
global entry and the imported map at that name are untouched, the skipped
list only grows, and an entry carrying that name lands in the skipped
list. -/
theorem vacuum_import_step_facts
    (acc : Dict GlobalSrv × Dict String × List String × List SyncError)
    (p : String × Discovered) (name : String)
    (hmem : dictMem acc.1 name = true) :
    dictLookup (vacuum_import_step true acc p).1 name = dictLookup acc.1 name ∧
    dictMem (vacuum_import_step true acc p).2.1 name = dictMem acc.2.1 name ∧
    (∀ x, x ∈ acc.2.2.1 → x ∈ (vacuum_import_step true acc p).2.2.1) ∧
    (p.1 = name → name ∈ (vacuum_import_step true acc p).2.2.1) := by
  by_cases hp : p.1 = name
  · have hcond : (true && dictMem acc.1 p.1) = true := by simp [hp, hmem]
    have h2 : vacuum_import_step true acc p =
        (acc.1, acc.2.1, acc.2.2.1 ++ [p.1], acc.2.2.2) := by
      simp only [vacuum_import_step, hcond, if_true]
    rw [h2]
    refine ⟨rfl, rfl, ?_, ?_⟩
    · intro x hx; exact List.mem_append_left _ hx
    · intro _
      rw [hp]
      exact List.mem_append_right _ (List.mem_singleton.mpr rfl)
  · have hne : ¬name = p.1 := fun hc => hp hc.symm
    unfold vacuum_import_step
    refine ⟨?_, ?_, ?_, fun hc => absurd hc hp⟩ <;> split
    · rfl
    · split
      · rfl
      · split
        · simp [dictLookup_insert, hne]
        · rfl
    · rfl
    · split
      · rfl
      · split
        · simp [dictMem, dictLookup_insert, hne]
        · rfl
    · intro x hx; exact List.mem_append_left _ hx
    · split
      · intro x hx; exact List.mem_append_left _ hx
      · split
        · intro x hx; exact hx
        · intro x hx; exact hx

/-- The import loop with `skip_existing=True` never changes the global
entry of a name it starts with, never imports it, and records it as
skipped as soon as a discovered entry carries it. -/
theorem vacuum_import_fold_frame (name : String) (L : Dict Discovered) :
    ∀ (acc : Dict GlobalSrv × Dict String × List String × List SyncError),
    dictMem acc.1 name = true →
    dictLookup (L.foldl (vacuum_import_step true) acc).1 name
        = dictLookup acc.1 name ∧
    dictMem (L.foldl (vacuum_import_step true) acc).2.1 name
        = dictMem acc.2.1 name ∧
    (∀ x, x ∈ acc.2.2.1 → x ∈ (L.foldl (vacuum_import_step true) acc).2.2.1) ∧
    ((∃ p ∈ L, p.1 = name) →
      name ∈ (L.foldl (vacuum_import_step true) acc).2.2.1) := by
  induction L with
  | nil =>
    intro acc hmem
    refine ⟨rfl, rfl, fun x hx => hx, ?_⟩
    rintro ⟨p, hp, _⟩
    exact absurd hp (List.not_mem_nil p)
  | cons p t ih =>
    intro acc hmem
    have hstep := vacuum_import_step_facts acc p name hmem
    have hmem2 : dictMem (vacuum_import_step true acc p).1 name = true := by
      simp [dictMem, hstep.1]
      simpa [dictMem] using hmem
    have hrec := ih (vacuum_import_step true acc p) hmem2
    simp only [List.foldl_cons]
    refine ⟨hrec.1.trans hstep.1, hrec.2.1.trans hstep.2.1, ?_, ?_⟩
    · intro x hx
      exact hrec.2.2.1 x (hstep.2.2.1 x hx)
    · rintro ⟨q, hq, hqn⟩
      rcases List.mem_cons.mp hq with hq | hq
      · subst hq
        exact hrec.2.2.1 name (hstep.2.2.2 hqn)
      · exact hrec.2.2.2 ⟨q, hq, hqn⟩

theorem exists_entry_of_dictMem {α : Type} {d : Dict α} {n : String}
    (h : dictMem d n = true) : ∃ p ∈ d, p.1 = n := by
  have hk : n ∈ dictKeys d := (dictMem_iff_mem_keys d n).mp h
  rcases List.mem_map.mp hk with ⟨p, hp, hpn⟩
  exact ⟨p, hp, hpn⟩

/-- Claim C8: with `skip_existing=True`, a discovered server name already
present in the global scope ends up in `skipped_servers`, never in
`imported_servers`, and the global entry for that name has the same value
after the import as before it. -/
theorem c8_skip_existing_preserves_global (w : World) (auto : Option String)
    (chooser : Chooser) (name : String)
    (hg : dictMem w.globalServers name = true)
    (hd : dictMem (vacuum_scan auto chooser w.locations).1 name = true) :
    name ∈ (vacuum_configs w auto true chooser).1.skipped_servers ∧
    dictMem (vacuum_configs w auto true chooser).1.imported_servers name
      = false ∧
    dictLookup (vacuum_configs w auto true chooser).2.1 name
      = dictLookup w.globalServers name := by
  have hfold := vacuum_import_fold_frame name
    (vacuum_scan auto chooser w.locations).1 (w.globalServers, [], [], []) hg
  have hex := exists_entry_of_dictMem hd
  exact ⟨hfold.2.2.2 hex, hfold.2.1, hfold.1⟩

/-- Witness for C8 at a concrete world where the global scope and one file
store both define `x`. -/
theorem c8_witness :
    "x" ∈ (vacuum_configs
      ⟨[("x", ⟨["g"], none, none⟩)], none,
       [{ path := "/c/a.json", name := "client-a",
          fileServers := some [("x", { command := some (.list ["other"]) })] }]⟩
      none true keepFirstChooser).1.skipped_servers ∧
    dictMem (vacuum_configs
      ⟨[("x", ⟨["g"], none, none⟩)], none,
       [{ path := "/c/a.json", name := "client-a",
          fileServers := some [("x", { command := some (.list ["other"]) })] }]⟩
      none true keepFirstChooser).1.imported_servers "x" = false ∧
    dictLookup (vacuum_configs
      ⟨[("x", ⟨["g"], none, none⟩)], none,
       [{ path := "/c/a.json", name := "client-a",
          fileServers := some [("x", { command := some (.list ["other"]) })] }]⟩
      none true keepFirstChooser).2.1 "x"
      = dictLookup [("x", ⟨["g"], none, none⟩)] "x" :=
  c8_skip_existing_preserves_global
    ⟨[("x", ⟨["g"], none, none⟩)], none,
     [{ path := "/c/a.json", name := "client-a",
        fileServers := some [("x", { command := some (.list ["other"]) })] }]⟩
    none keepFirstChooser "x" (by decide) (by decide)

/-! ### Claim C9 -/

/-- The per-location loop distributes over list append: every location is
processed independently and contributes its own updates, conflicts and
errors in order. -/
theorem sync_locs_append (master : Dict MasterEntry) (dry : Bool)
    (sel : Loc → Bool) (xs ys : List Loc) :
    sync_locs master dry sel (xs ++ ys) =
      ((sync_locs master dry sel xs).1 ++ (sync_locs master dry sel ys).1,
       (sync_locs master dry sel xs).2.1 ++ (sync_locs master dry sel ys).2.1,
       (sync_locs master dry sel xs).2.2.1 ++
         (sync_locs master dry sel ys).2.2.1,
       (sync_locs master dry sel xs).2.2.2 ++
         (sync_locs master dry sel ys).2.2.2) := by
  induction xs with
  | nil => simp [sync_locs]
  | cons loc t ih =>
    simp only [List.cons_append, sync_locs]
    by_cases hs : sel loc
    · simp only [hs, if_true]
      cases hr : sync_location loc master dry with
      | ok out => simp [ih, List.append_assoc]
      | error msg => simp [ih, List.append_assoc]
    · simp [hs, ih]

/-- Claim C9: an exception raised while reconciling one store is caught
and becomes an `errors` entry carrying that store's path and the
exception message, while every other store — before and after it — still
contributes its own results, and `sync_all` returns a `SyncResult`. -/
theorem c9_per_store_error_isolation (g : Dict GlobalSrv)
    (ps : Option (Dict SrvConfig)) (pre post : List Loc) (bad : Loc)
    (msg : String) (dry go po : Bool)
    (hsel : syncSelect go po bad = true)
    (hbad : sync_location bad (build_master_server_list g ps go po) dry
      = .error msg) :
    let master := build_master_server_list g ps go po
    let r := sync_all ⟨g, ps, pre ++ bad :: post⟩ dry go po none
    let a := sync_locs master dry (syncSelect go po) pre
    let b := sync_locs master dry (syncSelect go po) post
    r.1.errors = a.2.2.2 ++ ⟨bad.path, msg⟩ :: b.2.2.2 ∧
    r.1.updated_locations = a.2.1 ++ b.2.1 ∧
    r.1.conflicts = a.2.2.1 ++ b.2.2.1 ∧
    r.2.locations = a.1 ++ bad :: b.1 := by
  intro master r a b
  have hbadstep : sync_locs master dry (syncSelect go po) (bad :: post) =
      (bad :: b.1, b.2.1, b.2.2.1, ⟨bad.path, msg⟩ :: b.2.2.2) := by
    simp only [sync_locs, hsel, if_true, hbad]
  have hrun : r = (⟨a.2.1 ++ b.2.1, a.2.2.1 ++ b.2.2.1,
      a.2.2.2 ++ ⟨bad.path, msg⟩ :: b.2.2.2, dry⟩,
      { globalServers := g, projectServers := ps,
        locations := a.1 ++ bad :: b.1 }) := by
    show sync_all ⟨g, ps, pre ++ bad :: post⟩ dry go po none = _
    unfold sync_all
    simp only [sync_locs_append master dry (syncSelect go po) pre (bad :: post),
      hbadstep]
  rw [hrun]
  exact ⟨rfl, rfl, rfl, rfl⟩

/-- Witness for C9: a store whose write raises `disk full` is recorded as
an error while the store after it is still synced. -/
theorem c9_witness :
    let master := build_master_server_list [("a", ⟨["echo"], none, none⟩)]
      none false false
    let r := sync_all ⟨[("a", ⟨["echo"], none, none⟩)], none,
      [{ path := "/bad.json", name := "bad", fileServers := some [],
         writeError := some "disk full" }] ++
      { path := "/good.json", name := "good", fileServers := some [] } :: []⟩
      false false false none
    let a := sync_locs master false (syncSelect false false) []
    let b := sync_locs master false (syncSelect false false)
      [{ path := "/good.json", name := "good", fileServers := some [] }]
    r.1.errors = a.2.2.2 ++ ⟨"/bad.json", "disk full"⟩ :: b.2.2.2 ∧
    r.1.updated_locations = a.2.1 ++ b.2.1 ∧
    r.1.conflicts = a.2.2.1 ++ b.2.2.1 ∧
    r.2.locations = a.1 ++
      { path := "/bad.json", name := "bad", fileServers := some [],
        writeError := some "disk full" } :: b.1 := by
  have h := c9_per_store_error_isolation [("a", ⟨["echo"], none, none⟩)] none
    []
    [{ path := "/good.json", name := "good", fileServers := some [] }]
    { path := "/bad.json", name := "bad", fileServers := some [],
      writeError := some "disk full" }
    "disk full" false false false (by decide) (by rfl)
  exact h

/-! ### Claim C5 -/

theorem dictLookup_mem {α : Type} {d : Dict α} {n : String} {v : α}
    (h : dictLookup d n = some v) : (n, v) ∈ d := by
  induction d with
  | nil => simp [dictLookup] at h
  | cons p t ih =>
    by_cases hp : p.1 = n
    · simp only [dictLookup, if_pos hp] at h
      have hv : p.2 = v := by injection h
      have hpv : (n, v) = p := by
        cases p
        simp_all
      rw [hpv]
      exact List.mem_cons_self _ _
    · simp only [dictLookup, if_neg hp] at h
      exact List.mem_cons_of_mem _ (ih h)

theorem cli_remove_step_keysNodup (client_id : String) (cfg : MCPClientConfig)
    (new_servers : Dict SrvConfig) (st : CliState) (p : String × SrvConfig)
    (hst : KeysNodup st) :
    KeysNodup (cli_remove_step client_id cfg new_servers st p) := by
  unfold cli_remove_step executor_remove
  split
  · exact hst
  · split
    · exact keysNodup_erase _ hst
    · exact hst

/-- The removal walk of `cli_apply` erases exactly the names it is asked
to remove and for which the remove invocation validates, leaving every
other entry in place, and keeps the store keys duplicate-free. -/
theorem cli_remove_fold (client_id : String) (cfg : MCPClientConfig)
    (new_servers : Dict SrvConfig) :
    ∀ (current : Dict SrvConfig) (st : CliState), KeysNodup st →
    KeysNodup (current.foldl (cli_remove_step client_id cfg new_servers) st) ∧
    (∀ n,
      dictLookup (current.foldl (cli_remove_step client_id cfg new_servers) st)
          n =
        if removedBy client_id cfg current new_servers n then none
        else dictLookup st n) := by
  intro current
  induction current with
  | nil =>
    intro st hst
    exact ⟨hst, fun n => by simp [removedBy]⟩
  | cons p t ih =>
    intro st hst
    have hstep := cli_remove_step_keysNodup client_id cfg new_servers st p hst
    have hrec := ih (cli_remove_step client_id cfg new_servers st p) hstep
    refine ⟨by simpa [List.foldl_cons] using hrec.1, ?_⟩
    intro n
    rw [List.foldl_cons, hrec.2 n]
    have hany : removedBy client_id cfg (p :: t) new_servers n =
        ((p.1 = n && !dictMem new_servers p.1 &&
          remove_reaches_spawn client_id cfg p.1) ||
         removedBy client_id cfg t new_servers n) := by
      simp [removedBy, List.any_cons]
    rw [hany]
    cases hr : removedBy client_id cfg t new_servers n with
    | true => simp [hr]
    | false =>
      simp only [hr, Bool.or_false, Bool.false_eq_true, if_false]
      cases hp1 : decide (p.1 = n) with
      | false =>
        have hp1n : ¬p.1 = n := of_decide_eq_false hp1
        simp only [hp1, Bool.false_and, Bool.false_eq_true, if_false]
        unfold cli_remove_step executor_remove
        split
        · rfl
        · split
          · rw [dictLookup_erase st p.1 n hst, if_neg (fun hc => hp1n hc.symm)]
          · rfl
      | true =>
        have hp1e : p.1 = n := of_decide_eq_true hp1
        subst hp1e
        cases hmem : dictMem new_servers p.1 with
        | true => simp [cli_remove_step, hmem]
        | false =>
          cases hrrs : remove_reaches_spawn client_id cfg p.1 with
          | false => simp [cli_remove_step, executor_remove, hmem, hrrs]
          | true =>
            have herase := dictLookup_erase st p.1 p.1 hst
            simp [cli_remove_step, executor_remove, hmem, hrrs, herase]

theorem cli_add_step_lookup_other (client_id : String) (cfg : MCPClientConfig)
    (current_servers : Dict SrvConfig) (st : CliState) (p : String × SrvConfig)
    (n : String) (hn : ¬p.1 = n) :
    dictLookup (cli_add_step client_id cfg current_servers st p) n
      = dictLookup st n := by
  unfold cli_add_step executor_add
  split
  · rfl
  · split
    · rfl
    · split
      · rfl
      · split
        · rfl
        · rw [dictLookup_insert, if_neg (fun hc => hn hc.symm)]

theorem cli_add_step_lookup_self (client_id : String) (cfg : MCPClientConfig)
    (current_servers : Dict SrvConfig) (st : CliState) (p : String × SrvConfig) :
    dictLookup (cli_add_step client_id cfg current_servers st p) p.1
      = addEffect client_id cfg current_servers p (dictLookup st p.1) := by
  unfold cli_add_step addEffect executor_add
  split
  · rfl
  · split
    · rfl
    · split
      · rfl
      · split
        · rfl
        · rw [dictLookup_insert, if_pos rfl]

/-- The add walk of `cli_apply` touches only the names of `new_servers`,
and at each such name performs exactly the `addEffect` transition on the
stored entry. -/
theorem cli_add_fold (client_id : String) (cfg : MCPClientConfig)
    (current_servers : Dict SrvConfig) :
    ∀ (L : Dict SrvConfig) (st : CliState),
    (∀ n, n ∉ dictKeys L →
      dictLookup (L.foldl (cli_add_step client_id cfg current_servers) st) n
        = dictLookup st n) ∧
    (KeysNodup L → ∀ p ∈ L,
      dictLookup (L.foldl (cli_add_step client_id cfg current_servers) st) p.1
        = addEffect client_id cfg current_servers p (dictLookup st p.1)) := by
  intro L
  induction L with
  | nil =>
    intro st
    exact ⟨fun n _ => rfl, fun _ p hp => absurd hp (List.not_mem_nil p)⟩
  | cons q t ih =>
    intro st
    constructor
    · intro n hn
      simp only [dictKeys, List.map_cons, List.mem_cons, not_or] at hn
      rw [List.foldl_cons,
        (ih (cli_add_step client_id cfg current_servers st q)).1 n
          (by simpa [dictKeys] using hn.2),
        cli_add_step_lookup_other client_id cfg current_servers st q n
          (fun hc => hn.1 hc.symm)]
    · intro hnd p hp
      have hcons : (q.1 :: dictKeys t).Nodup := hnd
      have hq1 : q.1 ∉ dictKeys t := (List.nodup_cons.mp hcons).1
      have hndt : KeysNodup t := (List.nodup_cons.mp hcons).2
      rcases List.mem_cons.mp hp with hp | hp
      · subst hp
        rw [List.foldl_cons,
          (ih (cli_add_step client_id cfg current_servers st p)).1 p.1 hq1,
          cli_add_step_lookup_self]
      · have hne : ¬q.1 = p.1 := by
          intro hc
          exact hq1 (hc ▸ List.mem_map.mpr ⟨p, hp, rfl⟩)
        rw [List.foldl_cons,
          (ih (cli_add_step client_id cfg current_servers st q)).2 hndt p hp,
          cli_add_step_lookup_other client_id cfg current_servers st q p.1 hne]

theorem keysNodup_dictInsertAll {α β : Type} (f : String → α → β) (l : Dict α) :
    ∀ (init : Dict β), KeysNodup init → KeysNodup (dictInsertAll f init l) := by
  induction l with
  | nil => intro init h; exact h
  | cons p t ih =>
    intro init h
    simpa [dictInsertAll, List.foldl_cons] using
      ih (dictInsert init p.1 (f p.1 p.2)) (keysNodup_insert _ _ h)

theorem removedBy_eq_false_of_mem (client_id : String) (cfg : MCPClientConfig)
    (current new_servers : Dict SrvConfig) (n : String)
    (h : dictMem new_servers n = true) :
    removedBy client_id cfg current new_servers n = false := by
  rw [removedBy, List.any_eq_false]
  intro p hp
  by_cases hpn : p.1 = n
  · simp [hpn, h]
  · simp [hpn]

/-- `normCmdE` and `normCmd` agree whenever the normalisation does not
raise. -/
theorem normCmdE_some_eq {c : SrvConfig} {a : List String}
    (h : normCmdE c = some a) : a = normCmd c := by
  unfold normCmdE at h
  unfold normCmd
  cases hcc : c.command with
  | none =>
    rw [hcc] at h
    cases hga : getArgs c with
    | none => rw [hga] at h; exact Option.noConfusion h
    | some l =>
      rw [hga] at h
      injection h with h
      simp [hga, h]
  | some v =>
    cases v with
    | str s =>
      rw [hcc] at h
      cases hga : getArgs c with
      | none => rw [hga] at h; exact Option.noConfusion h
      | some l =>
        rw [hga] at h
        injection h with h
        simp [hga, h]
    | list l =>
      rw [hcc] at h
      cases hga : getArgs c with
      | none => rw [hga] at h; exact Option.noConfusion h
      | some a2 =>
        rw [hga] at h
        injection h with h
        simp [hga, h]
    | other =>
      rw [hcc] at h
      injection h with h
      simp [h]

theorem normCmdE_isSome_eq {c : SrvConfig} (h : (normCmdE c).isSome = true) :
    normCmdE c = some (normCmd c) := by
  cases he : normCmdE c with
  | none => rw [he] at h; exact absurd h (by simp)
  | some a => rw [normCmdE_some_eq he]

theorem mem_dictInsert {α : Type} :
    ∀ (d : Dict α) (k : String) (v : α) (p : String × α),
      p ∈ dictInsert d k v → p = (k, v) ∨ p ∈ d := by
  intro d
  induction d with
  | nil =>
    intro k v p hp
    simp [dictInsert] at hp
    exact Or.inl hp
  | cons q t ih =>
    intro k v p hp
    unfold dictInsert at hp
    by_cases hq : q.1 = k
    · rw [if_pos hq] at hp
      rcases List.mem_cons.mp hp with h | h
      · exact Or.inl h
      · exact Or.inr (List.mem_cons_of_mem _ h)
    · rw [if_neg hq] at hp
      rcases List.mem_cons.mp hp with h | h
      · exact Or.inr (h ▸ List.mem_cons_self _ _)
      · rcases ih k v p h with h2 | h2
        · exact Or.inl h2
        · exact Or.inr (List.mem_cons_of_mem _ h2)

/-- Every entry of `dictInsertAll f init l` is an entry of `init` or the
`f`-image of an entry of `l`. -/
theorem mem_dictInsertAll {α β : Type} (f : String → α → β) :
    ∀ (l : Dict α) (init : Dict β) (p : String × β),
      p ∈ dictInsertAll f init l →
      p ∈ init ∨ ∃ q ∈ l, p = (q.1, f q.1 q.2) := by
  intro l
  induction l with
  | nil => intro init p hp; exact Or.inl hp
  | cons q t ih =>
    intro init p hp
    rcases ih (dictInsert init q.1 (f q.1 q.2)) p hp with h | ⟨r, hr, hpr⟩
    · rcases mem_dictInsert init q.1 (f q.1 q.2) p h with h2 | h2
      · exact Or.inr ⟨q, List.mem_cons_self _ _, h2⟩
      · exact Or.inl h2
    · exact Or.inr ⟨r, List.mem_cons_of_mem _ hr, hpr⟩

/-- The conflict loop never raises when every master record normalises. -/
theorem cli_conflicts_isSome (path : String) (master : Dict MasterEntry)
    (hok : ∀ p ∈ master, (normCmdE p.2.config).isSome = true) :
    ∀ (L : List (String × SrvConfig)) (acc : Option (List Conflict)),
      acc.isSome = true →
      (L.foldl (cli_conflict_step path master) acc).isSome = true := by
  intro L
  induction L with
  | nil => intro acc h; exact h
  | cons p t ih =>
    intro acc h
    rw [List.foldl_cons]
    apply ih
    obtain ⟨cs, rfl⟩ := Option.isSome_iff_exists.mp h
    unfold cli_conflict_step
    cases hl : dictLookup master p.1 with
    | none => simp
    | some e =>
      have hne : normCmdE e.config = some (normCmd e.config) :=
        normCmdE_isSome_eq (hok (p.1, e) (dictLookup_mem hl))
      simp only [hne]
      split <;> simp

/-- The inner comparison loop never raises when every visited record
normalises. -/
theorem cli_changes_loop_isSome (csF : Dict SrvConfig) :
    ∀ L : List (String × SrvConfig),
      (∀ p ∈ L, (normCmdE p.2).isSome = true) →
      (cli_changes_loop csF L).isSome = true := by
  intro L
  induction L with
  | nil => intro _; rfl
  | cons p t ih =>
    intro hok
    unfold cli_changes_loop
    cases hl : dictLookup csF p.1 with
    | none => simp
    | some c =>
      have hne : normCmdE p.2 = some (normCmd p.2) :=
        normCmdE_isSome_eq (hok p (List.mem_cons_self _ _))
      simp only [hne]
      by_cases hc : cliCmdEq c (normCmd p.2) = true
      · simpa [hc] using ih (fun q hq => hok q (List.mem_cons_of_mem _ hq))
      · simp [hc]

theorem cli_changes_needed_isSome (cs ns : Dict SrvConfig)
    (hok : ∀ p ∈ ns, (normCmdE p.2).isSome = true) :
    (cli_changes_needed cs ns).isSome = true := by
  unfold cli_changes_needed
  by_cases hk : keySetEq (cs.filter (fun p => !urlTruthy p.2))
      (ns.filter (fun p => !urlTruthy p.2)) = true
  · simp only [hk, if_true]
    exact cli_changes_loop_isSome _ _
      (fun p hp => hok p (List.mem_of_mem_filter hp))
  · simp [hk]

/-- The raise-free add walk coincides with folding its per-entry state
action. -/
theorem cli_add_walk_eq_fold (client_id : String) (cfg : MCPClientConfig)
    (current_servers : Dict SrvConfig) :
    ∀ (L : Dict SrvConfig) (st : CliState),
      (∀ p ∈ L, (normCmdE p.2).isSome = true) →
      cli_add_walk client_id cfg current_servers st L
        = (L.foldl (cli_add_step client_id cfg current_servers) st, false) := by
  intro L
  induction L with
  | nil => intro st _; rfl
  | cons p t ih =>
    intro st hok
    have hp := normCmdE_isSome_eq (hok p (List.mem_cons_self _ _))
    have hat : ∀ q ∈ t, (normCmdE q.2).isSome = true :=
      fun q hq => hok q (List.mem_cons_of_mem _ hq)
    rw [List.foldl_cons]
    simp only [cli_add_walk, hp]
    unfold cli_add_step
    by_cases h1 : dictLookup current_servers p.1 = some p.2
    · simp only [h1, if_true]
      exact ih _ hat
    · simp only [h1, if_false]
      by_cases h2 : urlTruthy p.2 = true
      · simp only [h2, if_true]
        exact ih _ hat
      · simp only [h2, Bool.false_eq_true, if_false]
        by_cases h3 : normCmd p.2 = []
        · simp only [h3, if_true]
          exact ih _ hat
        · simp only [h3, if_false]
          exact ih _ hat

/-- Claim C5 fails on the code as stated: the removal pass uses the full
master name set, not its command-bearing subset.  Here the master list
holds only a URL-carrying entry `u` (realizable as a project-scope raw
config), so its command-bearing subset is empty, yet the stored server
`u` survives a non-dry-run apply because `servers_to_remove` is computed
against `new_servers` as a whole. -/
theorem c5_counterexample :
    ((dictInsertAll (fun _ e => e.config) []
        ([("u", ⟨{ url := some "https://x" }, .projectScope⟩)] :
          Dict MasterEntry)).filter
      (fun p => !urlTruthy p.2)) = [] ∧
    cliOutUpdated (sync_cli_location "cli:claude-code" "claude-code"
      sampleCliClient [("u", ["echo", "hi"])]
      [("u", ⟨{ url := some "https://x" }, .projectScope⟩)] false) = true ∧
    dictLookup (cliOutState (sync_cli_location "cli:claude-code"
      "claude-code" sampleCliClient [("u", ["echo", "hi"])]
      [("u", ⟨{ url := some "https://x" }, .projectScope⟩)] false)) "u"
      = some ["echo", "hi"] :=
  ⟨by decide, by decide, by decide⟩

/-- Claim C5 amended: in a non-dry-run CLI reconciliation that applies
changes and in which no master record's command normalisation raises
(none pairs a string or list command with an `args` key holding `null`),
every currently listed server whose name is absent from the master list
AS A WHOLE is removed (when the remove invocation validates), names
outside the master list are otherwise left to the removal pass alone,
and only then does the add walk, for every master entry, leave the
stored entry unchanged when the raw listed config already equals the
master record, when the record carries a URL, when its normalised
command is empty or when the add invocation is refused — and otherwise
set it to the normalised command vector (`addEffect`). -/
theorem c5_amended_cli_apply (path client_id : String) (cfg : MCPClientConfig)
    (st : CliState) (master : Dict MasterEntry)
    (hget : get_reaches_spawn client_id cfg = true)
    (hok : ∀ p ∈ master, (normCmdE p.2.config).isSome = true)
    (hchg : cli_changes_needed (cli_get st)
      (dictInsertAll (fun _ e => e.config) [] master) = some true)
    (hst : KeysNodup st) :
    let new_servers := dictInsertAll (fun _ e => e.config) [] master
    let r := sync_cli_location path client_id cfg st master false
    cliOutUpdated r = true ∧
    (∀ n, dictMem (cli_get st) n = true → dictMem new_servers n = false →
      remove_reaches_spawn client_id cfg n = true →
      dictLookup (cliOutState r) n = none) ∧
    (∀ n, dictMem new_servers n = false →
      dictLookup (cliOutState r) n =
        if removedBy client_id cfg (cli_get st) new_servers n then none
        else dictLookup st n) ∧
    (∀ n c, dictLookup new_servers n = some c →
      dictLookup (cliOutState r) n
        = addEffect client_id cfg (cli_get st) (n, c) (dictLookup st n)) := by
  intro new_servers r
  have hoknew : ∀ p ∈ new_servers, (normCmdE p.2).isSome = true := by
    intro p hp
    rcases mem_dictInsertAll _ master [] p hp with h | ⟨q, hq, hpq⟩
    · exact absurd h (List.not_mem_nil p)
    · rw [hpq]
      exact hok q hq
  obtain ⟨cs, hcs0⟩ := Option.isSome_iff_exists.mp
    (cli_conflicts_isSome path master hok (cli_get st) (some []) rfl)
  have hcs : cli_conflicts path (cli_get st) master = some cs := hcs0
  have hwalk := cli_add_walk_eq_fold client_id cfg (cli_get st) new_servers
    ((cli_get st).foldl (cli_remove_step client_id cfg new_servers) st) hoknew
  have hr : r = .ok (new_servers.foldl
      (cli_add_step client_id cfg (cli_get st))
      ((cli_get st).foldl (cli_remove_step client_id cfg new_servers) st))
      cs true := by
    show sync_cli_location path client_id cfg st master false = _
    unfold sync_cli_location cli_apply
    simp only [executor_get, hget, if_true, Option.getD, hcs, hchg, hwalk,
      Bool.false_eq_true, if_false]
  have hrem := cli_remove_fold client_id cfg new_servers (cli_get st) st hst
  have hadd := cli_add_fold client_id cfg (cli_get st) new_servers
    ((cli_get st).foldl (cli_remove_step client_id cfg new_servers) st)
  have happly : cliOutState r = new_servers.foldl
      (cli_add_step client_id cfg (cli_get st))
      ((cli_get st).foldl (cli_remove_step client_id cfg new_servers) st) := by
    rw [hr]
    rfl
  have hframe : ∀ n, dictMem new_servers n = false →
      dictLookup (cliOutState r) n =
        if removedBy client_id cfg (cli_get st) new_servers n then none
        else dictLookup st n := by
    intro n hn
    rw [happly, hadd.1 n ((dictMem_eq_false_iff new_servers n).mp hn),
      hrem.2 n]
  refine ⟨by rw [hr]; rfl, ?_, hframe, ?_⟩
  · intro n hcur hnew hrrs
    have hrb : removedBy client_id cfg (cli_get st) new_servers n = true := by
      rw [removedBy, List.any_eq_true]
      rcases exists_entry_of_dictMem hcur with ⟨p, hp, hpn⟩
      exact ⟨p, hp, by simp [hpn, hnew, hrrs]⟩
    rw [hframe n hnew, if_pos hrb]
  · intro n c hc
    have hnd : KeysNodup new_servers :=
      keysNodup_dictInsertAll (fun _ e => e.config) master []
        (by simp [KeysNodup, dictKeys])
    have hmem : dictMem new_servers n = true := by
      simp [dictMem, hc]
    have hrb := removedBy_eq_false_of_mem client_id cfg (cli_get st)
      new_servers n hmem
    have heff := hadd.2 hnd (n, c) (dictLookup_mem hc)
    rw [happly, heff, hrem.2 n, hrb, if_neg (by simp)]

/-- Witness for the amended C5 at a concrete client and master list. -/
theorem c5_witness :
    let new_servers := dictInsertAll (fun _ e => e.config) []
      ([("s1", ⟨{ command := some (.str "echo"), args := some (.list ["hi"]) },
          .projectScope⟩)] : Dict MasterEntry)
    let r := sync_cli_location "cli:claude-code" "claude-code" sampleCliClient
      [("old", ["x"])]
      [("s1", ⟨{ command := some (.str "echo"), args := some (.list ["hi"]) },
          .projectScope⟩)] false
    cliOutUpdated r = true ∧
    (∀ n, dictMem (cli_get [("old", ["x"])]) n = true →
      dictMem new_servers n = false →
      remove_reaches_spawn "claude-code" sampleCliClient n = true →
      dictLookup (cliOutState r) n = none) ∧
    (∀ n, dictMem new_servers n = false →
      dictLookup (cliOutState r) n =
        if removedBy "claude-code" sampleCliClient (cli_get [("old", ["x"])])
            new_servers n then none
        else dictLookup [("old", ["x"])] n) ∧
    (∀ n c, dictLookup new_servers n = some c →
      dictLookup (cliOutState r) n
        = addEffect "claude-code" sampleCliClient (cli_get [("old", ["x"])])
            (n, c) (dictLookup [("old", ["x"])] n)) :=
  c5_amended_cli_apply "cli:claude-code" "claude-code" sampleCliClient
    [("old", ["x"])]
    [("s1", ⟨{ command := some (.str "echo"), args := some (.list ["hi"]) },
        .projectScope⟩)]
    (by decide) (by decide) (by decide) (by decide)

/-! ### Claim C7 -/

theorem scan_server_first (ch : Chooser) (locName : String)
    (D : Dict Discovered) (C : List VacConflict) (k : Nat) (name : String)
    (config : SrvConfig) :
    vacuum_scan_server (some "first") ch locName (D, C, k) name config =
      match dictLookup D name with
      | some existing => (D, C ++ [⟨name, existing.source, locName⟩], k)
      | none => (dictInsert D name ⟨config, locName⟩, C, k) := by
  unfold vacuum_scan_server
  cases hD : dictLookup D name with
  | some existing => simp
  | none => simp

theorem storeCollisions_fold (seen : Dict String) (locName : String) :
    ∀ (t : Dict SrvConfig) (init : List VacConflict),
    t.foldl (fun acc p =>
      match dictLookup seen p.1 with
      | some src => acc ++ [⟨p.1, src, locName⟩]
      | none => acc) init
      = init ++ storeCollisions seen locName t := by
  intro t
  induction t with
  | nil => intro init; simp [storeCollisions]
  | cons p u ih =>
    intro init
    simp only [List.foldl_cons]
    rw [ih]
    have hsc : storeCollisions seen locName (p :: u) =
        (match dictLookup seen p.1 with
         | some src => [(⟨p.1, src, locName⟩ : VacConflict)]
         | none => []) ++ storeCollisions seen locName u := by
      unfold storeCollisions
      simp only [List.foldl_cons]
      rw [ih]
      cases dictLookup seen p.1 <;> simp [storeCollisions]
    rw [hsc]
    cases dictLookup seen p.1 <;> simp

theorem seenUpdate_lookup (locName : String) :
    ∀ (m : Dict SrvConfig) (seen : Dict String) (n : String),
    dictLookup (seenUpdate seen locName m) n =
      match dictLookup seen n with
      | some s => some s
      | none => if dictMem m n then some locName else none := by
  intro m
  induction m with
  | nil =>
    intro seen n
    cases h : dictLookup seen n <;> simp [seenUpdate, dictMem, dictLookup, h]
  | cons p t ih =>
    intro seen n
    have hstep : seenUpdate seen locName (p :: t) =
        seenUpdate (if dictMem seen p.1 then seen
          else dictInsert seen p.1 locName) locName t := by
      unfold seenUpdate
      simp only [List.foldl_cons]
    rw [hstep, ih]
    by_cases hs : dictMem seen p.1
    · rw [if_pos hs]
      cases hn : dictLookup seen n with
      | some s => simp
      | none =>
        simp only []
        have hp1n : ¬p.1 = n := by
          intro hc
          rw [hc] at hs
          simp [dictMem, hn] at hs
        simp [dictMem, dictLookup, hp1n]
    · rw [if_neg hs]
      by_cases hpn : p.1 = n
      · subst hpn
        have hseen : dictLookup seen p.1 = none := by
          simp [dictMem] at hs
          exact Option.eq_none_of_isNone (by simpa using hs)
        simp [dictLookup_insert, hseen, dictMem, dictLookup]
      · rw [dictLookup_insert]
        rw [if_neg (fun hc => hpn hc.symm)]
        cases hn : dictLookup seen n with
        | some s => simp
        | none => simp [dictMem, dictLookup, hpn]

theorem storeCollisions_cons (seen : Dict String) (locName : String)
    (p : String × SrvConfig) (u : Dict SrvConfig) :
    storeCollisions seen locName (p :: u) =
      (match dictLookup seen p.1 with
       | some src => [(⟨p.1, src, locName⟩ : VacConflict)]
       | none => []) ++ storeCollisions seen locName u := by
  unfold storeCollisions
  simp only [List.foldl_cons]
  rw [storeCollisions_fold]
  cases dictLookup seen p.1 <;> simp [storeCollisions]

theorem scan_store_first (ch : Chooser) (locName : String) :
    ∀ (m : Dict SrvConfig) (D : Dict Discovered) (C : List VacConflict)
      (k : Nat) (seen : Dict String), KeysNodup m → KeysNodup D →
      (∀ p ∈ m, (dictLookup D p.1).map Discovered.source
        = dictLookup seen p.1) →
      (m.foldl
        (fun a p => vacuum_scan_server (some "first") ch locName a p.1 p.2)
        (D, C, k)).2.2 = k ∧
      (m.foldl
        (fun a p => vacuum_scan_server (some "first") ch locName a p.1 p.2)
        (D, C, k)).2.1 = C ++ storeCollisions seen locName m ∧
      (∀ n, dictLookup (m.foldl
        (fun a p => vacuum_scan_server (some "first") ch locName a p.1 p.2)
        (D, C, k)).1 n =
        match dictLookup D n with
        | some d => some d
        | none => (dictLookup m n).map (fun c => (⟨c, locName⟩ : Discovered))) ∧
      KeysNodup (m.foldl
        (fun a p => vacuum_scan_server (some "first") ch locName a p.1 p.2)
        (D, C, k)).1 := by
  intro m
  induction m with
  | nil =>
    intro D C k seen _ hD _
    refine ⟨rfl, by simp [storeCollisions], ?_, hD⟩
    intro n
    cases h : dictLookup D n <;> simp [dictLookup, h]
  | cons p t ih =>
    intro D C k seen hm hD hcoup
    have hcons : (p.1 :: dictKeys t).Nodup := hm
    have hp1t : p.1 ∉ dictKeys t := (List.nodup_cons.mp hcons).1
    have hmt : KeysNodup t := (List.nodup_cons.mp hcons).2
    have hcp := hcoup p (List.mem_cons_self p t)
    simp only [List.foldl_cons]
    rw [scan_server_first ch locName D C k p.1 p.2]
    cases hDp : dictLookup D p.1 with
    | some existing =>
      have hseen : dictLookup seen p.1 = some existing.source := by
        rw [← hcp, hDp]
        rfl
      have hrec := ih D (C ++ [⟨p.1, existing.source, locName⟩]) k seen hmt hD
        (fun q hq => hcoup q (List.mem_cons_of_mem p hq))
      simp only [hDp]
      refine ⟨hrec.1, ?_, ?_, hrec.2.2.2⟩
      · rw [hrec.2.1, storeCollisions_cons, hseen]
        simp
      · intro n
        rw [hrec.2.2.1 n]
        cases hDn : dictLookup D n with
        | some d => simp
        | none =>
          have hpn : ¬p.1 = n := by
            intro hc
            rw [hc] at hDp
            rw [hDp] at hDn
            exact Option.noConfusion hDn
          simp [dictLookup, hpn]
    | none =>
      have hseen : dictLookup seen p.1 = none := by
        rw [← hcp, hDp]
        rfl
      have hD1 : KeysNodup (dictInsert D p.1 ⟨p.2, locName⟩) :=
        keysNodup_insert _ _ hD
      have hcoup1 : ∀ q ∈ t,
          (dictLookup (dictInsert D p.1 ⟨p.2, locName⟩) q.1).map
            Discovered.source = dictLookup seen q.1 := by
        intro q hq
        have hqp : ¬q.1 = p.1 := by
          intro hc
          exact hp1t (hc ▸ List.mem_map.mpr ⟨q, hq, rfl⟩)
        rw [dictLookup_insert, if_neg hqp]
        exact hcoup q (List.mem_cons_of_mem p hq)
      have hrec := ih (dictInsert D p.1 ⟨p.2, locName⟩) C k seen hmt hD1 hcoup1
      simp only [hDp]
      refine ⟨hrec.1, ?_, ?_, hrec.2.2.2⟩
      · rw [hrec.2.1, storeCollisions_cons, hseen]
        simp
      · intro n
        rw [hrec.2.2.1 n, dictLookup_insert]
        by_cases hpn : n = p.1
        · subst hpn
          rw [if_pos rfl, hDp]
          simp [dictLookup]
        · rw [if_neg hpn]
          cases hDn : dictLookup D n with
          | some d => simp
          | none =>
            have hpn2 : ¬p.1 = n := fun hc => hpn hc.symm
            simp [dictLookup, hpn2]

theorem vacuum_scan_loc_eq (auto : Option String) (ch : Chooser)
    (acc : Dict Discovered × List VacConflict × Nat) (loc : Loc) :
    vacuum_scan_loc auto ch acc loc =
      match locServerMap loc with
      | none => acc
      | some m =>
        m.foldl (fun a p => vacuum_scan_server auto ch loc.name a p.1 p.2)
          acc := by
  cases hcli : locIsCli loc with
  | true =>
    cases hc : loc.client with
    | none => simp [vacuum_scan_loc, locServerMap, hcli, hc]
    | some cfg =>
      cases hg : executor_get loc.cliState (locClientId loc) cfg with
      | none => simp [vacuum_scan_loc, locServerMap, hcli, hc, hg]
      | some servers =>
        by_cases hs : servers = []
        · simp [vacuum_scan_loc, locServerMap, hcli, hc, hg, hs]
        · simp [vacuum_scan_loc, locServerMap, hcli, hc, hg, hs]
  | false =>
    by_cases hn : pathName loc.path = ".mcp.json"
    · simp [vacuum_scan_loc, locServerMap, hcli, hn]
    · cases hf : loc.fileServers <;>
        simp [vacuum_scan_loc, locServerMap, hcli, hn, hf]

theorem dictLookup_of_mem_nodup {α : Type} {d : Dict α} {n : String} {v : α}
    (hm : (n, v) ∈ d) (hd : KeysNodup d) : dictLookup d n = some v := by
  induction d with
  | nil => exact absurd hm (List.not_mem_nil _)
  | cons p t ih =>
    have hcons : (p.1 :: dictKeys t).Nodup := hd
    rcases List.mem_cons.mp hm with hm | hm
    · rw [← hm]
      simp [dictLookup]
    · have hnk : n ∈ dictKeys t := List.mem_map.mpr ⟨(n, v), hm, rfl⟩
      have hpn : ¬p.1 = n :=
        fun hc => (List.nodup_cons.mp hcons).1 (hc ▸ hnk)
      simp only [dictLookup, if_neg hpn]
      exact ih hm (List.nodup_cons.mp hcons).2

theorem vacuum_scan_first_aux (ch : Chooser) :
    ∀ (locations : List Loc) (D : Dict Discovered) (C : List VacConflict)
      (k : Nat) (seen : Dict String),
      (∀ loc ∈ locations, KeysNodup ((locServerMap loc).getD [])) →
      KeysNodup D →
      (∀ n, (dictLookup D n).map Discovered.source = dictLookup seen n) →
      (locations.foldl (vacuum_scan_loc (some "first") ch) (D, C, k)).2.2 = k ∧
      (locations.foldl (vacuum_scan_loc (some "first") ch) (D, C, k)).2.1
        = C ++ collisionList seen locations ∧
      (∀ n, dictLookup
          (locations.foldl (vacuum_scan_loc (some "first") ch) (D, C, k)).1 n =
        match dictLookup D n with
        | some d => some d
        | none => (firstOccIn locations n).map
            (fun q => (⟨q.1, q.2⟩ : Discovered))) ∧
      KeysNodup
        (locations.foldl (vacuum_scan_loc (some "first") ch) (D, C, k)).1 := by
  intro locations
  induction locations with
  | nil =>
    intro D C k seen _ hD _
    refine ⟨rfl, by simp [collisionList], ?_, hD⟩
    intro n
    cases h : dictLookup D n <;> simp [firstOccIn, h]
  | cons loc t ih =>
    intro D C k seen h hD hcoup
    have hloc := h loc (List.mem_cons_self loc t)
    have ht : ∀ l ∈ t, KeysNodup ((locServerMap l).getD []) :=
      fun l hl => h l (List.mem_cons_of_mem loc hl)
    simp only [List.foldl_cons, vacuum_scan_loc_eq]
    cases hmap : locServerMap loc with
    | none =>
      have hrec := ih D C k seen ht hD hcoup
      refine ⟨hrec.1, ?_, ?_, hrec.2.2.2⟩
      · rw [hrec.2.1]
        simp [collisionList, hmap]
      · intro n
        rw [hrec.2.2.1 n]
        cases dictLookup D n <;> simp [firstOccIn, hmap]
    | some m =>
      have hm : KeysNodup m := by
        rw [hmap] at hloc
        exact hloc
      have hstore := scan_store_first ch loc.name m D C k seen hm hD
        (fun p _ => hcoup p.1)
      have hcoup2 : ∀ n,
          (dictLookup (m.foldl (fun a p =>
            vacuum_scan_server (some "first") ch loc.name a p.1 p.2)
            (D, C, k)).1 n).map Discovered.source
          = dictLookup (seenUpdate seen loc.name m) n := by
        intro n
        rw [hstore.2.2.1 n, seenUpdate_lookup]
        cases hDn : dictLookup D n with
        | some d =>
          have hc2 := hcoup n
          rw [hDn] at hc2
          simp only [hDn, ← hc2]
          simp
        | none =>
          have hc2 := hcoup n
          rw [hDn] at hc2
          simp only [hDn, ← hc2]
          cases hmn : dictLookup m n <;> simp [dictMem, hmn]
      have hrec := ih
        (m.foldl (fun a p =>
          vacuum_scan_server (some "first") ch loc.name a p.1 p.2) (D, C, k)).1
        (m.foldl (fun a p =>
          vacuum_scan_server (some "first") ch loc.name a p.1 p.2)
          (D, C, k)).2.1
        (m.foldl (fun a p =>
          vacuum_scan_server (some "first") ch loc.name a p.1 p.2)
          (D, C, k)).2.2
        (seenUpdate seen loc.name m) ht hstore.2.2.2 hcoup2
      refine ⟨?_, ?_, ?_, hrec.2.2.2⟩
      · exact hrec.1.trans hstore.1
      · refine hrec.2.1.trans ?_
        rw [hstore.2.1]
        simp [collisionList, hmap, List.append_assoc]
      · intro n
        refine (hrec.2.2.1 n).trans ?_
        rw [hstore.2.2.1 n]
        cases hDn : dictLookup D n with
        | some d => simp
        | none =>
          cases hmn : dictLookup m n with
          | some c => simp [firstOccIn, hmap, hmn]
          | none => simp [firstOccIn, hmap, hmn]

theorem import_imported_source (sk : Bool) :
    ∀ (L : Dict Discovered)
      (acc : Dict GlobalSrv × Dict String × List String × List SyncError)
      (n src : String),
    dictLookup (L.foldl (vacuum_import_step sk) acc).2.1 n = some src →
    dictLookup acc.2.1 n = some src ∨
      ∃ p ∈ L, p.1 = n ∧ p.2.source = src := by
  intro L
  induction L with
  | nil =>
    intro acc n src h
    exact Or.inl h
  | cons p t ih =>
    intro acc n src h
    rcases ih (vacuum_import_step sk acc p) n src (by simpa using h) with
      h1 | h1
    · have hstep : dictLookup (vacuum_import_step sk acc p).2.1 n
          = some src := h1
      unfold vacuum_import_step at hstep
      split at hstep
      · exact Or.inl hstep
      · split at hstep
        · exact Or.inl hstep
        · split at hstep
          · rw [dictLookup_insert] at hstep
            by_cases hpn : n = p.1
            · rw [if_pos hpn] at hstep
              have hs2 : p.2.source = src := by injection hstep
              exact Or.inr ⟨p, List.mem_cons_self p t, hpn.symm, hs2⟩
            · rw [if_neg hpn] at hstep
              exact Or.inl hstep
          · exact Or.inl hstep
    · rcases h1 with ⟨q, hq, hqs⟩
      exact Or.inr ⟨q, List.mem_cons_of_mem p hq, hqs⟩

/-- Claim C7: with `autoResolve="first"` the vacuum scan is
deterministic — the interactive chooser is never invoked (zero
invocations), every discovered name resolves to the config and source of
the store visited earliest in registration order, each collision is
recorded as a conflict entry whose chosen source is the incumbent
(earliest) store and whose rejected source is the later store, and every
imported name's recorded source is the earliest store defining it. -/
theorem c7_vacuum_first_deterministic (w : World) (ch : Chooser) (sk : Bool)
    (h : ∀ loc ∈ w.locations, KeysNodup ((locServerMap loc).getD [])) :
    (vacuum_scan (some "first") ch w.locations).2.2 = 0 ∧
    (vacuum_configs w (some "first") sk ch).1.conflicts
      = collisionList [] w.locations ∧
    (∀ n, dictLookup (vacuum_scan (some "first") ch w.locations).1 n
      = (firstOccIn w.locations n).map (fun q => (⟨q.1, q.2⟩ : Discovered))) ∧
    (∀ n src,
      dictLookup (vacuum_configs w (some "first") sk ch).1.imported_servers n
        = some src →
      (firstOccIn w.locations n).map (fun q => q.2) = some src) := by
  have haux := vacuum_scan_first_aux ch w.locations [] [] 0 [] h
    (by simp [KeysNodup, dictKeys]) (fun n => rfl)
  have hscan1 : (vacuum_scan (some "first") ch w.locations).2.2 = 0 := haux.1
  have hscan2 : (vacuum_scan (some "first") ch w.locations).2.1
      = collisionList [] w.locations := by
    refine haux.2.1.trans ?_
    simp
  have hscan3 : ∀ n,
      dictLookup (vacuum_scan (some "first") ch w.locations).1 n
        = (firstOccIn w.locations n).map
            (fun q => (⟨q.1, q.2⟩ : Discovered)) := by
    intro n
    refine (haux.2.2.1 n).trans ?_
    simp [dictLookup]
  refine ⟨hscan1, hscan2, hscan3, ?_⟩
  intro n src himp
  have himp2 : dictLookup
      (((vacuum_scan (some "first") ch w.locations).1.foldl
        (vacuum_import_step sk) (w.globalServers, [], [], []))).2.1 n
      = some src := himp
  rcases import_imported_source sk (vacuum_scan (some "first") ch w.locations).1
      (w.globalServers, [], [], []) n src himp2 with h1 | ⟨p, hp, hpn, hps⟩
  · simp [dictLookup] at h1
  · have hmem : (n, p.2) ∈ (vacuum_scan (some "first") ch w.locations).1 := by
      rw [← hpn]
      exact hp
    have hl := dictLookup_of_mem_nodup hmem haux.2.2.2
    rw [hscan3 n] at hl
    cases hf : firstOccIn w.locations n with
    | none =>
      rw [hf] at hl
      exact absurd hl (by simp)
    | some q =>
      rw [hf] at hl
      simp only [Option.map_some'] at hl ⊢
      have hq2 : q.2 = p.2.source := by
        have : (⟨q.1, q.2⟩ : Discovered) = p.2 := by injection hl
        rw [← this]
      rw [hq2, hps]

/-- Witness for C7: two stores both defining `x`; the first one wins and
one conflict is recorded, with no interactive resolution. -/
theorem c7_witness :
    (vacuum_scan (some "first") keepFirstChooser
      [{ path := "/a.json", name := "A",
         fileServers := some [("x", { command := some (.list ["a"]) })] },
       { path := "/b.json", name := "B",
         fileServers := some [("x", { command := some (.list ["b"]) }),
                              ("y", { command := some (.list ["y"]) })] }]).2.2
      = 0 ∧
    dictLookup (vacuum_scan (some "first") keepFirstChooser
      [{ path := "/a.json", name := "A",
         fileServers := some [("x", { command := some (.list ["a"]) })] },
       { path := "/b.json", name := "B",
         fileServers := some [("x", { command := some (.list ["b"]) }),
                              ("y", { command := some (.list ["y"]) })] }]).1
      "x" = some ⟨{ command := some (.list ["a"]) }, "A"⟩ ∧
    (vacuum_configs
      ⟨[], none,
       [{ path := "/a.json", name := "A",
          fileServers := some [("x", { command := some (.list ["a"]) })] },
        { path := "/b.json", name := "B",
          fileServers := some [("x", { command := some (.list ["b"]) }),
                               ("y", { command := some (.list ["y"]) })] }]⟩
      (some "first") false keepFirstChooser).1.conflicts
      = [⟨"x", "A", "B"⟩] := by
  have h := c7_vacuum_first_deterministic
    ⟨[], none,
     [{ path := "/a.json", name := "A",
        fileServers := some [("x", { command := some (.list ["a"]) })] },
      { path := "/b.json", name := "B",
        fileServers := some [("x", { command := some (.list ["b"]) }),
                             ("y", { command := some (.list ["y"]) })] }]⟩
    keepFirstChooser false (by decide)
  exact ⟨h.1, (h.2.2.1 "x").trans (by decide), h.2.1.trans (by decide)⟩

theorem dictMem_of_mem {α : Type} {d : Dict α} {p : String × α} (h : p ∈ d) :
    dictMem d p.1 = true := by
  induction d with
  | nil => exact absurd h (List.not_mem_nil p)
  | cons q t ih =>
    rcases List.mem_cons.mp h with h | h
    · rw [h]
      simp [dictMem, dictLookup]
    · by_cases hq : q.1 = p.1
      · simp [dictMem, dictLookup, hq]
      · simpa [dictMem, dictLookup, hq] using ih h

theorem retained_fold_nodup (master : Dict MasterEntry) :
    ∀ (cur : Dict SrvConfig) (init : Dict SrvConfig), KeysNodup init →
    KeysNodup (cur.foldl
      (fun acc p => if dictMem master p.1 then acc else dictInsert acc p.1 p.2)
      init) := by
  intro cur
  induction cur with
  | nil => intro init h; exact h
  | cons p t ih =>
    intro init h
    simp only [List.foldl_cons]
    by_cases hmem : dictMem master p.1
    · rw [if_pos hmem]
      exact ih init h
    · rw [if_neg hmem]
      exact ih _ (keysNodup_insert _ _ h)

theorem retained_fold_keys (master : Dict MasterEntry) :
    ∀ (cur : Dict SrvConfig) (init : Dict SrvConfig),
    (∀ n ∈ dictKeys init, dictMem master n = false) →
    (∀ n ∈ dictKeys (cur.foldl
      (fun acc p => if dictMem master p.1 then acc else dictInsert acc p.1 p.2)
      init), dictMem master n = false) := by
  intro cur
  induction cur with
  | nil => intro init h; exact h
  | cons p t ih =>
    intro init h
    simp only [List.foldl_cons]
    by_cases hmem : dictMem master p.1
    · rw [if_pos hmem]
      exact ih init h
    · rw [if_neg hmem]
      refine ih _ ?_
      intro n hn
      rw [dictKeys_insert] at hn
      by_cases hp : p.1 ∈ dictKeys init
      · rw [if_pos hp] at hn
        exact h n hn
      · rw [if_neg hp] at hn
        rcases List.mem_append.mp hn with hn | hn
        · exact h n hn
        · rw [List.mem_singleton.mp hn]
          simpa using hmem

theorem retained_eq_filter (master : Dict MasterEntry) :
    ∀ (cur : Dict SrvConfig) (init : Dict SrvConfig), KeysNodup cur →
    (∀ p ∈ cur, p.1 ∉ dictKeys init) →
    cur.foldl
      (fun acc p => if dictMem master p.1 then acc else dictInsert acc p.1 p.2)
      init = init ++ cur.filter (fun p => !dictMem master p.1) := by
  intro cur
  induction cur with
  | nil => intro init _ _; simp
  | cons p t ih =>
    intro init hnd hdisj
    have hcons : (p.1 :: dictKeys t).Nodup := hnd
    have hp1t : p.1 ∉ dictKeys t := (List.nodup_cons.mp hcons).1
    have hndt : KeysNodup t := (List.nodup_cons.mp hcons).2
    simp only [List.foldl_cons, List.filter_cons]
    by_cases hmem : dictMem master p.1
    · rw [if_pos hmem]
      simp only [hmem, Bool.not_true, Bool.false_eq_true, if_false]
      exact ih init hndt (fun q hq => hdisj q (List.mem_cons_of_mem p hq))
    · rw [if_neg hmem]
      simp only [Bool.not_eq_true', hmem, Bool.not_false, if_true]
      rw [dictInsert_eq_append p.2 (hdisj p (List.mem_cons_self p t))]
      rw [ih (init ++ [(p.1, p.2)]) hndt ?_]
      · simp
      · intro q hq
        rw [dictKeys, List.map_append]
        intro hc
        rcases List.mem_append.mp hc with hc | hc
        · exact hdisj q (List.mem_cons_of_mem p hq) hc
        · simp only [List.map_cons, List.map_nil, List.mem_singleton] at hc
          exact hp1t (hc ▸ List.mem_map.mpr ⟨q, hq, rfl⟩)

theorem dictInsertAll_eq_append {α β : Type} (f : String → α → β) :
    ∀ (L : Dict α) (A : Dict β), KeysNodup L →
    (∀ p ∈ L, p.1 ∉ dictKeys A) →
    dictInsertAll f A L = A ++ L.map (fun p => (p.1, f p.1 p.2)) := by
  intro L
  induction L with
  | nil => intro A _ _; simp [dictInsertAll]
  | cons p t ih =>
    intro A hnd hdisj
    have hcons : (p.1 :: dictKeys t).Nodup := hnd
    have hp1t : p.1 ∉ dictKeys t := (List.nodup_cons.mp hcons).1
    have hndt : KeysNodup t := (List.nodup_cons.mp hcons).2
    simp only [dictInsertAll, List.foldl_cons] at ih ⊢
    rw [dictInsert_eq_append (f p.1 p.2) (hdisj p (List.mem_cons_self p t))]
    rw [ih (A ++ [(p.1, f p.1 p.2)]) hndt ?_]
    · simp
    · intro q hq
      rw [dictKeys, List.map_append]
      intro hc
      rcases List.mem_append.mp hc with hc | hc
      · exact hdisj q (List.mem_cons_of_mem p hq) hc
      · simp only [List.map_cons, List.map_nil, List.mem_singleton] at hc
        exact hp1t (hc ▸ List.mem_map.mpr ⟨q, hq, rfl⟩)

theorem new_servers_nodup (cur : Dict SrvConfig) (master : Dict MasterEntry) :
    KeysNodup (sync_location_file "p" cur master).new_servers := by
  show KeysNodup (dictInsertAll (fun _ e => e.config)
    (retained_servers cur master) master)
  exact keysNodup_dictInsertAll _ master _
    (retained_fold_nodup master cur [] (by simp [KeysNodup, dictKeys]))

theorem sync_location_file_new_stable (path path2 : String)
    (cur : Dict SrvConfig) (master : Dict MasterEntry) (hm : KeysNodup master) :
    (sync_location_file path2
      (sync_location_file path cur master).new_servers master).new_servers
      = (sync_location_file path cur master).new_servers := by
  have hn1 : (sync_location_file path cur master).new_servers
      = dictInsertAll (fun _ e => e.config) (retained_servers cur master)
        master := rfl
  have hkeys : ∀ n ∈ dictKeys (retained_servers cur master),
      dictMem master n = false :=
    retained_fold_keys master cur [] (by simp [dictKeys])
  have hnd1 : KeysNodup (sync_location_file path cur master).new_servers :=
    new_servers_nodup cur master
  have hdisj : ∀ p ∈ master,
      p.1 ∉ dictKeys (retained_servers cur master) := by
    intro p hp hc
    have := hkeys p.1 hc
    rw [dictMem_of_mem hp] at this
    exact Bool.noConfusion this
  have hdecomp : (sync_location_file path cur master).new_servers
      = retained_servers cur master ++
        master.map (fun p => (p.1, p.2.config)) := by
    rw [hn1]
    exact dictInsertAll_eq_append _ master (retained_servers cur master) hm hdisj
  show dictInsertAll (fun _ e => e.config)
      (retained_servers (sync_location_file path cur master).new_servers master)
      master = _
  have hret2 : retained_servers
      (sync_location_file path cur master).new_servers master
      = retained_servers cur master := by
    show (sync_location_file path cur master).new_servers.foldl
      (fun acc p => if dictMem master p.1 then acc else dictInsert acc p.1 p.2)
      [] = _
    rw [retained_eq_filter master _ [] hnd1 (by simp [dictKeys])]
    rw [List.nil_append, hdecomp, List.filter_append]
    have hf1 : (retained_servers cur master).filter
        (fun p => !dictMem master p.1) = retained_servers cur master := by
      rw [List.filter_eq_self]
      intro q hq
      have := hkeys q.1 (List.mem_map.mpr ⟨q, hq, rfl⟩)
      simp [this]
    have hf2 : (master.map (fun p => (p.1, p.2.config))).filter
        (fun p => !dictMem master p.1) = [] := by
      rw [List.filter_eq_nil_iff]
      intro q hq
      rcases List.mem_map.mp hq with ⟨e, he, hqe⟩
      have : dictMem master q.1 = true := by
        rw [← hqe]
        exact dictMem_of_mem he
      simp [this]
    rw [hf1, hf2, List.append_nil]
  rw [hret2]
  rw [show dictInsertAll (fun _ e => e.config) (retained_servers cur master)
    master = (sync_location_file path cur master).new_servers from rfl]

theorem sync_location_file_idem (path path2 : String) (cur : Dict SrvConfig)
    (master : Dict MasterEntry) (hm : KeysNodup master) :
    (sync_location_file path2
      (sync_location_file path cur master).new_servers master).updated
      = false := by
  show (!dictBEq (sync_location_file path cur master).new_servers
    (sync_location_file path2
      (sync_location_file path cur master).new_servers master).new_servers)
    = false
  rw [sync_location_file_new_stable path path2 cur master hm, dictBEq_refl]
  rfl

theorem pyMatchClass_ne_empty {cls : Char → Bool} {n : String}
    (h : pyMatchClass cls n = true) : n ≠ "" := by
  intro hc
  subst hc
  simp [pyMatchClass, pyMatch1, pyMatchCore] at h

theorem remove_reaches_spawn_of_ready (client_id : String)
    (cfg : MCPClientConfig) (n : String)
    (hn : pyMatchClass srvNameChar n = true)
    (hr : client_remove_ready client_id cfg = true) :
    remove_reaches_spawn client_id cfg n = true := by
  have hne : n ≠ "" := pyMatchClass_ne_empty hn
  unfold client_remove_ready at hr
  unfold remove_reaches_spawn
  simp only [Bool.and_eq_true, decide_eq_true_eq] at hr ⊢
  exact ⟨⟨⟨⟨hr.1.1, hne⟩, hn⟩, hr.1.2⟩, hr.2⟩

theorem cli_get_lookup :
    ∀ (st : CliState) (n : String),
    dictLookup (cli_get st) n =
      if pyMatchClass srvNameChar n
      then (dictLookup st n).map
        (fun argv => { command := some (.list argv) : SrvConfig })
      else none := by
  intro st
  induction st with
  | nil =>
    intro n
    simp only [cli_get, List.filter_nil, List.map_nil, dictLookup]
    split <;> rfl
  | cons p t ih =>
    intro n
    by_cases hp : pyMatchClass srvNameChar p.1
    · have hck : cli_get (p :: t)
          = (p.1, { command := some (.list p.2) : SrvConfig }) :: cli_get t := by
        simp [cli_get, List.filter_cons, hp]
      rw [hck]
      by_cases hpn : p.1 = n
      · subst hpn
        simp [dictLookup, hp]
      · simp only [dictLookup, if_neg hpn, ih n]
    · have hck : cli_get (p :: t) = cli_get t := by
        simp [cli_get, List.filter_cons, hp]
      rw [hck, ih n]
      by_cases hpn : p.1 = n
      · subst hpn
        simp [hp, dictLookup]
      · simp [dictLookup, hpn]

theorem master_new_lookup (master : Dict MasterEntry) (hm : KeysNodup master)
    (n : String) :
    dictLookup (dictInsertAll (fun _ e => e.config) [] master) n
      = (dictLookup master n).map (fun e => e.config) := by
  rw [dictInsertAll_lookup, lookupLast_eq_dictLookup master n hm]
  cases dictLookup master n <;> simp [dictLookup]

theorem cli_apply_lookup_characterization (client_id : String)
    (cfg : MCPClientConfig) (st : CliState) (master : Dict MasterEntry)
    (hm : KeysNodup master) (hst : KeysNodup st)
    (hrm : client_remove_ready client_id cfg = true)
    (hmr : ∀ p ∈ master, urlTruthy p.2.config = false ∧
      (normCmdE p.2.config).isSome = true ∧
      pyMatchClass srvNameChar p.1 = true ∧ normCmd p.2.config ≠ [] ∧
      add_mcp_server client_id cfg p.1 (normCmd p.2.config)
        (p.2.config.env.getD []) "local" ≠ .refused) :
    ∀ n, dictLookup (cli_get (cli_apply st client_id cfg (cli_get st)
        (dictInsertAll (fun _ e => e.config) [] master)).1) n
      = (dictLookup master n).map
          (fun e => ({ command := some (.list (normCmd e.config)) } :
            SrvConfig)) := by
  intro n
  have hndnew : KeysNodup (dictInsertAll (fun _ e => e.config) [] master) :=
    keysNodup_dictInsertAll _ master [] (by simp [KeysNodup, dictKeys])
  have hoknew : ∀ p ∈ dictInsertAll (fun _ e => e.config) [] master,
      (normCmdE p.2).isSome = true := by
    intro p hp
    rcases mem_dictInsertAll _ master [] p hp with h | ⟨q, hq, hpq⟩
    · exact absurd h (List.not_mem_nil p)
    · rw [hpq]
      exact (hmr q hq).2.1
  have hrem := cli_remove_fold client_id cfg
    (dictInsertAll (fun _ e => e.config) [] master) (cli_get st) st hst
  have hadd := cli_add_fold client_id cfg (cli_get st)
    (dictInsertAll (fun _ e => e.config) [] master)
    ((cli_get st).foldl (cli_remove_step client_id cfg
      (dictInsertAll (fun _ e => e.config) [] master)) st)
  have happly1 : (cli_apply st client_id cfg (cli_get st)
      (dictInsertAll (fun _ e => e.config) [] master)).1
      = (dictInsertAll (fun _ e => e.config) [] master).foldl
        (cli_add_step client_id cfg (cli_get st))
        ((cli_get st).foldl (cli_remove_step client_id cfg
          (dictInsertAll (fun _ e => e.config) [] master)) st) := by
    unfold cli_apply
    rw [cli_add_walk_eq_fold client_id cfg (cli_get st) _ _ hoknew]
  cases hman : dictLookup master n with
  | some e =>
    rcases hmr (n, e) (dictLookup_mem hman) with ⟨hurl, _, hpm, hnc, hadd_ok⟩
    have hnl : dictLookup (dictInsertAll (fun _ e => e.config) [] master) n
        = some e.config := by
      rw [master_new_lookup master hm n, hman]
      rfl
    have hmemnew : dictMem (dictInsertAll (fun _ e => e.config) [] master) n
        = true := by
      simp [dictMem, hnl]
    have happ : dictLookup (cli_apply st client_id cfg (cli_get st)
        (dictInsertAll (fun _ e => e.config) [] master)).1 n
        = addEffect client_id cfg (cli_get st) (n, e.config)
            (dictLookup st n) := by
      rw [happly1, hadd.2 hndnew (n, e.config) (dictLookup_mem hnl), hrem.2 n,
        removedBy_eq_false_of_mem client_id cfg (cli_get st) _ n hmemnew,
        if_neg (by simp)]
    have heff : addEffect client_id cfg (cli_get st) (n, e.config)
        (dictLookup st n) = some (normCmd e.config) := by
      unfold addEffect
      by_cases hcur : dictLookup (cli_get st) n = some e.config
      · rw [if_pos hcur]
        rw [cli_get_lookup st n, if_pos hpm] at hcur
        cases hstn : dictLookup st n with
        | none => rw [hstn] at hcur; exact absurd hcur (by simp)
        | some argv =>
          rw [hstn] at hcur
          simp only [Option.map_some'] at hcur
          have hcfg : e.config
              = { command := some (.list argv) : SrvConfig } := by
            injection hcur with h2
            exact h2.symm
          rw [hcfg]
          simp [normCmd, getArgs]
      · rw [if_neg hcur]
        simp only
        rw [if_neg (by simp [hurl] : ¬urlTruthy (n, e.config).2 = true)]
        rw [if_neg (by simpa using hnc)]
        cases hspawn : add_mcp_server client_id cfg n (normCmd e.config)
            (e.config.env.getD []) "local" with
        | refused => exact absurd hspawn hadd_ok
        | spawned argv => rfl
    rw [cli_get_lookup _ n, if_pos hpm, happ, heff]
    rfl
  | none =>
    have hnl : dictLookup (dictInsertAll (fun _ e => e.config) [] master) n
        = none := by
      rw [master_new_lookup master hm n, hman]
      rfl
    have hnot : n ∉ dictKeys (dictInsertAll (fun _ e => e.config) [] master) :=
      fun hc => by
        have := dictLookup_isSome_of_mem_keys hc
        rw [hnl] at this
        exact Bool.noConfusion this
    have happ : dictLookup (cli_apply st client_id cfg (cli_get st)
        (dictInsertAll (fun _ e => e.config) [] master)).1 n
        = if removedBy client_id cfg (cli_get st)
            (dictInsertAll (fun _ e => e.config) [] master) n then none
          else dictLookup st n := by
      rw [happly1, hadd.1 n hnot, hrem.2 n]
    rw [cli_get_lookup _ n]
    by_cases hpm : pyMatchClass srvNameChar n
    · rw [if_pos hpm, happ]
      cases hstn : dictLookup st n with
      | none =>
        cases removedBy client_id cfg (cli_get st)
            (dictInsertAll (fun _ e => e.config) [] master) n <;> simp [hstn]
      | some argv =>
        have hcur : dictMem (cli_get st) n = true := by
          simp [dictMem, cli_get_lookup st n, hpm, hstn]
        have hrb : removedBy client_id cfg (cli_get st)
            (dictInsertAll (fun _ e => e.config) [] master) n = true := by
          rw [removedBy, List.any_eq_true]
          rcases exists_entry_of_dictMem hcur with ⟨p, hp, hpn⟩
          refine ⟨p, hp, ?_⟩
          have hmemf : dictMem (dictInsertAll (fun _ e => e.config) [] master)
              n = false := by
            simp [dictMem, hnl]
          simp [hpn, hmemf,
            remove_reaches_spawn_of_ready client_id cfg n hpm hrm]
        simp [hrb]
    · rw [if_neg hpm]
      rfl
theorem cli_get_url_false (st : CliState) :
    ∀ p ∈ cli_get st, urlTruthy p.2 = false := by
  intro p hp
  rcases List.mem_map.mp hp with ⟨q, _, hq⟩
  rw [← hq]
  rfl

theorem cli_changes_loop_false (csF : Dict SrvConfig) :
    ∀ L : List (String × SrvConfig),
      (∀ p ∈ L, ∃ c, dictLookup csF p.1 = some c ∧
        normCmdE p.2 = some (normCmd p.2) ∧
        cliCmdEq c (normCmd p.2) = true) →
      cli_changes_loop csF L = some false := by
  intro L
  induction L with
  | nil => intro _; rfl
  | cons p t ih =>
    intro h
    obtain ⟨c, hl, hne, hcmd⟩ := h p (List.mem_cons_self _ _)
    unfold cli_changes_loop
    simp only [hl, hne, hcmd, if_true]
    exact ih (fun q hq => h q (List.mem_cons_of_mem _ hq))

theorem cli_second_pass_no_changes (client_id : String)
    (cfg : MCPClientConfig) (st : CliState) (master : Dict MasterEntry)
    (hm : KeysNodup master) (hst : KeysNodup st)
    (hrm : client_remove_ready client_id cfg = true)
    (hmr : ∀ p ∈ master, urlTruthy p.2.config = false ∧
      (normCmdE p.2.config).isSome = true ∧
      pyMatchClass srvNameChar p.1 = true ∧ normCmd p.2.config ≠ [] ∧
      add_mcp_server client_id cfg p.1 (normCmd p.2.config)
        (p.2.config.env.getD []) "local" ≠ .refused) :
    cli_changes_needed
      (cli_get (cli_apply st client_id cfg (cli_get st)
        (dictInsertAll (fun _ e => e.config) [] master)).1)
      (dictInsertAll (fun _ e => e.config) [] master) = some false := by
  have hchar := cli_apply_lookup_characterization client_id cfg st master
    hm hst hrm hmr
  have hnewmap : dictInsertAll (fun _ e => e.config) [] master
      = master.map (fun p => (p.1, p.2.config)) :=
    dictInsertAll_eq_append _ master [] hm (by simp [dictKeys])
  have hnewnd : KeysNodup (dictInsertAll (fun _ e => e.config) [] master) :=
    keysNodup_dictInsertAll _ master [] (by simp [KeysNodup, dictKeys])
  have hnu : ∀ p ∈ dictInsertAll (fun _ e => e.config) [] master,
      urlTruthy p.2 = false := by
    intro p hp
    rw [hnewmap] at hp
    rcases List.mem_map.mp hp with ⟨q, hq, hpq⟩
    rw [← hpq]
    exact (hmr q hq).1
  have hcf : (cli_get (cli_apply st client_id cfg (cli_get st)
      (dictInsertAll (fun _ e => e.config) [] master)).1).filter
        (fun p => !urlTruthy p.2)
      = cli_get (cli_apply st client_id cfg (cli_get st)
        (dictInsertAll (fun _ e => e.config) [] master)).1 :=
    List.filter_eq_self.mpr (fun p hp => by
      simp [cli_get_url_false _ p hp])
  have hnf : (dictInsertAll (fun _ e => e.config) [] master).filter
        (fun p => !urlTruthy p.2)
      = dictInsertAll (fun _ e => e.config) [] master :=
    List.filter_eq_self.mpr (fun p hp => by simp [hnu p hp])
  have hks : keySetEq
      (cli_get (cli_apply st client_id cfg (cli_get st)
        (dictInsertAll (fun _ e => e.config) [] master)).1)
      (dictInsertAll (fun _ e => e.config) [] master) = true := by
    rw [keySetEq, Bool.and_eq_true, List.all_eq_true, List.all_eq_true]
    constructor
    · intro p hp
      have hks2 : p.1 ∈ dictKeys (cli_get (cli_apply st client_id cfg
          (cli_get st) (dictInsertAll (fun _ e => e.config) [] master)).1) :=
        List.mem_map.mpr ⟨p, hp, rfl⟩
      have hsome := dictLookup_isSome_of_mem_keys hks2
      rw [hchar p.1] at hsome
      cases hman : dictLookup master p.1 with
      | none => rw [hman] at hsome; exact absurd hsome (by simp)
      | some e =>
        have : dictLookup (dictInsertAll (fun _ e => e.config) [] master) p.1
            = some e.config := by
          rw [master_new_lookup master hm p.1, hman]
          rfl
        simp [dictMem, this]
    · intro p hp
      have hks2 : p.1 ∈ dictKeys (dictInsertAll (fun _ e => e.config) []
          master) := List.mem_map.mpr ⟨p, hp, rfl⟩
      have hsome := dictLookup_isSome_of_mem_keys hks2
      rw [master_new_lookup master hm p.1] at hsome
      cases hman : dictLookup master p.1 with
      | none => rw [hman] at hsome; exact absurd hsome (by simp)
      | some e =>
        have : dictLookup (cli_get (cli_apply st client_id cfg (cli_get st)
            (dictInsertAll (fun _ e => e.config) [] master)).1) p.1
            = some { command := some (.list (normCmd e.config)) } := by
          rw [hchar p.1, hman]
          rfl
        simp [dictMem, this]
  have hloop : cli_changes_loop
      (cli_get (cli_apply st client_id cfg (cli_get st)
        (dictInsertAll (fun _ e => e.config) [] master)).1)
      (dictInsertAll (fun _ e => e.config) [] master) = some false := by
    apply cli_changes_loop_false
    intro p hp
    have hlk : dictLookup (dictInsertAll (fun _ e => e.config) [] master) p.1
        = some p.2 := dictLookup_of_mem_nodup (by
          cases p
          exact hp) hnewnd
    rw [master_new_lookup master hm p.1] at hlk
    cases hman : dictLookup master p.1 with
    | none => rw [hman] at hlk; exact absurd hlk (by simp)
    | some e =>
      rw [hman] at hlk
      simp only [Option.map_some'] at hlk
      have hec : e.config = p.2 := by injection hlk
      have hcg : dictLookup (cli_get (cli_apply st client_id cfg (cli_get st)
          (dictInsertAll (fun _ e => e.config) [] master)).1) p.1
          = some { command := some (.list (normCmd e.config)) } := by
        rw [hchar p.1, hman]
        rfl
      have hne : normCmdE p.2 = some (normCmd p.2) := by
        rw [← hec]
        exact normCmdE_isSome_eq (hmr (p.1, e) (dictLookup_mem hman)).2.1
      exact ⟨_, hcg, hne, by simp [cliCmdEq, hec]⟩
  unfold cli_changes_needed
  simp only [hcf, hnf, hks, if_true]
  exact hloop

theorem sync_cli_location_snd_not_updated (path path2 client_id : String)
    (cfg : MCPClientConfig) (st st1 : CliState) (cs : List Conflict)
    (u : Bool) (master : Dict MasterEntry)
    (hm : KeysNodup master) (hst : KeysNodup st)
    (hget : get_reaches_spawn client_id cfg = true)
    (hrm : client_remove_ready client_id cfg = true)
    (hmr : ∀ p ∈ master, urlTruthy p.2.config = false ∧
      (normCmdE p.2.config).isSome = true ∧
      pyMatchClass srvNameChar p.1 = true ∧ normCmd p.2.config ≠ [] ∧
      add_mcp_server client_id cfg p.1 (normCmd p.2.config)
        (p.2.config.env.getD []) "local" ≠ .refused)
    (hrun : sync_cli_location path client_id cfg st master false
      = .ok st1 cs u) :
    ∃ cs2, sync_cli_location path2 client_id cfg st1 master false
      = .ok st1 cs2 false := by
  have hok : ∀ p ∈ master, (normCmdE p.2.config).isSome = true :=
    fun p hp => (hmr p hp).2.1
  have hoknew : ∀ p ∈ dictInsertAll (fun _ e => e.config) [] master,
      (normCmdE p.2).isSome = true := by
    intro p hp
    rcases mem_dictInsertAll _ master [] p hp with h | ⟨q, hq, hpq⟩
    · exact absurd h (List.not_mem_nil p)
    · rw [hpq]
      exact hok q hq
  obtain ⟨cs0, hcs0'⟩ := Option.isSome_iff_exists.mp
    (cli_conflicts_isSome path master hok (cli_get st) (some []) rfl)
  have hcs0 : cli_conflicts path (cli_get st) master = some cs0 := hcs0'
  obtain ⟨b, hb⟩ := Option.isSome_iff_exists.mp
    (cli_changes_needed_isSome (cli_get st)
      (dictInsertAll (fun _ e => e.config) [] master) hoknew)
  cases b with
  | false =>
    have hr1 : sync_cli_location path client_id cfg st master false
        = .ok st cs0 false := by
      unfold sync_cli_location
      simp only [executor_get, hget, if_true, Option.getD, hcs0, hb,
        Bool.false_eq_true, if_false]
    rw [hr1] at hrun
    injection hrun with h1 h2 h3
    subst h1
    obtain ⟨cs2, hcs2'⟩ := Option.isSome_iff_exists.mp
      (cli_conflicts_isSome path2 master hok (cli_get st) (some []) rfl)
    have hcs2 : cli_conflicts path2 (cli_get st) master = some cs2 := hcs2'
    refine ⟨cs2, ?_⟩
    unfold sync_cli_location
    simp only [executor_get, hget, if_true, Option.getD, hcs2, hb,
      Bool.false_eq_true, if_false]
  | true =>
    have hwalk := cli_add_walk_eq_fold client_id cfg (cli_get st)
      (dictInsertAll (fun _ e => e.config) [] master)
      ((cli_get st).foldl (cli_remove_step client_id cfg
        (dictInsertAll (fun _ e => e.config) [] master)) st) hoknew
    have hr1 : sync_cli_location path client_id cfg st master false
        = .ok ((dictInsertAll (fun _ e => e.config) [] master).foldl
            (cli_add_step client_id cfg (cli_get st))
            ((cli_get st).foldl (cli_remove_step client_id cfg
              (dictInsertAll (fun _ e => e.config) [] master)) st)) cs0
            true := by
      unfold sync_cli_location cli_apply
      simp only [executor_get, hget, if_true, Option.getD, hcs0, hb, hwalk,
        Bool.false_eq_true, if_false]
    rw [hr1] at hrun
    injection hrun with h1 h2 h3
    have happly1 : (cli_apply st client_id cfg (cli_get st)
        (dictInsertAll (fun _ e => e.config) [] master)).1 = st1 := by
      unfold cli_apply
      rw [hwalk]
      exact h1
    obtain ⟨cs2, hcs2'⟩ := Option.isSome_iff_exists.mp
      (cli_conflicts_isSome path2 master hok (cli_get st1) (some []) rfl)
    have hcs2 : cli_conflicts path2 (cli_get st1) master = some cs2 := hcs2'
    have hchg2 : cli_changes_needed (cli_get st1)
        (dictInsertAll (fun _ e => e.config) [] master) = some false := by
      rw [← happly1]
      exact cli_second_pass_no_changes client_id cfg st master hm hst hrm hmr
    refine ⟨cs2, ?_⟩
    unfold sync_cli_location
    simp only [executor_get, hget, if_true, Option.getD, hcs2, hchg2,
      Bool.false_eq_true, if_false]

theorem locSyncIdemReady_cli_parts (master : Dict MasterEntry) (loc : Loc)
    (cfg : MCPClientConfig) (hcli : locIsCli loc = true)
    (hcl : loc.client = some cfg)
    (hready : locSyncIdemReady master loc = true) :
    KeysNodup loc.cliState ∧
    get_reaches_spawn (locClientId loc) cfg = true ∧
    client_remove_ready (locClientId loc) cfg = true ∧
    (∀ p ∈ master, urlTruthy p.2.config = false ∧
      (normCmdE p.2.config).isSome = true ∧
      pyMatchClass srvNameChar p.1 = true ∧ normCmd p.2.config ≠ [] ∧
      add_mcp_server (locClientId loc) cfg p.1 (normCmd p.2.config)
        (p.2.config.env.getD []) "local" ≠ .refused) := by
  rw [locSyncIdemReady, if_pos hcli, hcl] at hready
  simp only [Bool.and_eq_true, decide_eq_true_eq, List.all_eq_true] at hready
  refine ⟨hready.1.1.1, hready.1.1.2, hready.1.2, ?_⟩
  intro p hp
  have hb := hready.2 p hp
  simp only [Bool.and_eq_true, Bool.not_eq_true', decide_eq_true_eq] at hb
  refine ⟨hb.1.1.1.1, hb.1.1.1.2, hb.1.1.2, ?_, hb.2⟩
  intro hc
  rw [hc] at hb
  simp at hb

theorem sync_location_cli_ok (loc : Loc) (cfg : MCPClientConfig)
    (master : Dict MasterEntry) (d : Bool) (st1 : CliState)
    (cs : List Conflict) (u : Bool) (hcli : locIsCli loc = true)
    (hcl : loc.client = some cfg)
    (hr : sync_cli_location loc.path (locClientId loc) cfg loc.cliState
      master d = .ok st1 cs u) :
    sync_location loc master d = .ok
      ⟨{ loc with client := some cfg, cliState := st1 }, u, cs, []⟩ := by
  rw [sync_location, if_pos hcli]
  simp only [hcl, hr]

theorem sync_location_file_upd (loc : Loc) (cur : Dict SrvConfig)
    (master : Dict MasterEntry) (hcli : ¬locIsCli loc = true)
    (hfs : loc.fileServers = some cur)
    (hupd : (sync_location_file loc.path cur master).updated = true)
    (hwe : loc.writeError = none) :
    sync_location loc master false = .ok
      ⟨{ loc with writeError := none, fileServers := some (sync_location_file loc.path cur master).new_servers },
       true, (sync_location_file loc.path cur master).conflicts, []⟩ := by
  rw [sync_location, if_neg hcli, hfs]
  simp only [hupd, if_true, Bool.false_eq_true, if_false, hwe]

theorem sync_location_file_noupd (loc : Loc) (cur : Dict SrvConfig)
    (master : Dict MasterEntry) (hcli : ¬locIsCli loc = true)
    (hfs : loc.fileServers = some cur)
    (hupd : (sync_location_file loc.path cur master).updated = false) :
    sync_location loc master false = .ok
      ⟨loc, false, (sync_location_file loc.path cur master).conflicts, []⟩ := by
  rw [sync_location, if_neg hcli, hfs]
  simp only [hupd, Bool.false_eq_true, if_false]

theorem sync_location_twice (loc : Loc) (master : Dict MasterEntry)
    (hm : KeysNodup master) (hready : locSyncIdemReady master loc = true) :
    ∀ out, sync_location loc master false = .ok out →
      out.loc.path = loc.path ∧
      ∃ out2, sync_location out.loc master false = .ok out2 ∧
        out2.updated = false := by
  intro out hout
  by_cases hcli : locIsCli loc = true
  · cases hcl : loc.client with
    | none =>
      rw [sync_location, if_pos hcli, hcl] at hout
      injection hout with hout
      subst hout
      refine ⟨rfl, ⟨loc, false, [], []⟩, ?_, rfl⟩
      rw [sync_location, if_pos hcli, hcl]
    | some cfg =>
      rcases locSyncIdemReady_cli_parts master loc cfg hcli hcl hready with
        ⟨hst, hget, hrm, hmr⟩
      cases hr : sync_cli_location loc.path (locClientId loc) cfg loc.cliState
          master false with
      | raised st' m =>
        rw [sync_location, if_pos hcli] at hout
        simp only [hcl, hr] at hout
        exact Except.noConfusion hout
      | ok st1 cs u =>
        rw [sync_location_cli_ok loc cfg master false st1 cs u hcli hcl hr]
          at hout
        injection hout with hout
        subst hout
        obtain ⟨cs2, hrun2⟩ := sync_cli_location_snd_not_updated loc.path
          loc.path (locClientId loc) cfg loc.cliState st1 cs u master hm hst
          hget hrm hmr hr
        refine ⟨rfl, _, sync_location_cli_ok _ cfg master false st1 cs2 false
          hcli rfl hrun2, rfl⟩
  · cases hfs : loc.fileServers with
    | none =>
      rw [sync_location, if_neg hcli, hfs] at hout
      injection hout with hout
      subst hout
      refine ⟨rfl, ⟨loc, false, [],
        [⟨loc.path, "Failed to read config"⟩]⟩, ?_, rfl⟩
      rw [sync_location, if_neg hcli, hfs]
    | some cur =>
      cases hupd : (sync_location_file loc.path cur master).updated with
      | true =>
        cases hwe : loc.writeError with
        | some msg =>
          rw [sync_location, if_neg hcli, hfs] at hout
          simp only [hupd, if_true, Bool.false_eq_true, if_false, hwe] at hout
          exact Except.noConfusion hout
        | none =>
          rw [sync_location_file_upd loc cur master hcli hfs hupd hwe] at hout
          injection hout with hout
          subst hout
          refine ⟨rfl, _, sync_location_file_noupd _
            (sync_location_file loc.path cur master).new_servers master hcli
            rfl ?_, rfl⟩
          exact sync_location_file_idem loc.path loc.path cur master hm
      | false =>
        rw [sync_location_file_noupd loc cur master hcli hfs hupd] at hout
        injection hout with hout
        subst hout
        exact ⟨rfl, _, sync_location_file_noupd loc cur master hcli hfs hupd,
          rfl⟩

theorem sync_locs_twice (master : Dict MasterEntry) (hm : KeysNodup master)
    (sel : Loc → Bool)
    (hsel : ∀ l l' : Loc, l.path = l'.path → sel l = sel l') :
    ∀ ls : List Loc,
      (∀ loc ∈ ls, sel loc = true → locSyncIdemReady master loc = true) →
      (sync_locs master false sel
        (sync_locs master false sel ls).1).2.1 = [] := by
  intro ls
  induction ls with
  | nil => intro _; rfl
  | cons loc t ih =>
    intro hr
    have hrt : ∀ l ∈ t, sel l = true → locSyncIdemReady master l = true :=
      fun l hl => hr l (List.mem_cons_of_mem _ hl)
    have ihs := ih hrt
    cases hseL : sel loc with
    | false =>
      simp only [sync_locs, hseL, Bool.false_eq_true, if_false]
      exact ihs
    | true =>
      have hready := hr loc (List.mem_cons_self _ _) hseL
      cases hE : sync_location loc master false with
      | error msg =>
        simp only [sync_locs, hseL, if_true, hE]
        exact ihs
      | ok out =>
        rcases sync_location_twice loc master hm hready out hE with
          ⟨hpath, out2, hE2, hupd2⟩
        have hsel2 : sel out.loc = true := by
          rw [hsel out.loc loc hpath]
          exact hseL
        simp only [sync_locs, hseL, if_true, hE]
        simp only [sync_locs, hsel2, if_true, hE2, hupd2, Bool.false_eq_true,
          if_false, List.nil_append]
        exact ihs

theorem build_master_keysNodup (globalServers : Dict GlobalSrv)
    (projectServers : Option (Dict SrvConfig)) (go po : Bool) :
    KeysNodup (build_master_server_list globalServers projectServers go po) := by
  have hnil : KeysNodup ([] : Dict MasterEntry) := List.nodup_nil
  have hbase : KeysNodup (if po then ([] : Dict MasterEntry)
      else dictInsertAll (fun _ c => ⟨dumpGlobal c, .globalScope⟩) []
        globalServers) := by
    cases po with
    | true => simpa using hnil
    | false => simpa using keysNodup_dictInsertAll _ globalServers [] hnil
  rw [build_master_server_list.eq_def]
  cases go with
  | true => simpa using hbase
  | false =>
    cases projectServers with
    | none => simpa using hbase
    | some ps =>
      simp only [Bool.false_eq_true, if_false]
      exact keysNodup_dictInsertAll _ ps _ hbase
/-- Claim C3 counterexample: with a CLI location and a master entry named
`my.server` (a name the executor's `^[a-zA-Z0-9_-]+$` validation refuses),
the add step can never materialise the server in the CLI store, so the
second `sync_all` run still reports the CLI location as updated — the
claimed unconditional idempotence fails. -/
theorem c3_counterexample :
    (sync_all (sync_all
      ⟨[], some [("my.server", { command := some (.str "echo") })],
       [{ path := "cli:claude-code", name := "claude-code",
          config_type := "cli", client := some sampleCliClient }]⟩
      false false false none).2 false false false none).1.updated_locations
      = ["cli:claude-code"] := by decide

/-- Claim C3 amended: running `sync_all` twice with no external change in
between yields an empty `updated_locations` on the second run, provided
every selected CLI location is idempotence-ready: its stored names are
distinct, its list/remove templates resolve, and every master entry is
CLI-compatible (no URL, a command normalisation that does not raise —
no `args` key holding `null` next to a string or list command —
executor-valid name, non-empty normalised command, and an add invocation
that passes validation).  File locations need no side condition. -/
theorem c3_amended (w : World) (go po : Bool)
    (hready : ∀ loc ∈ w.locations, syncSelect go po loc = true →
      locSyncIdemReady (build_master_server_list w.globalServers
        w.projectServers go po) loc = true) :
    (sync_all (sync_all w false go po none).2 false go po
      none).1.updated_locations = [] := by
  have hsel : ∀ l l' : Loc, l.path = l'.path →
      syncSelect go po l = syncSelect go po l' := by
    intro l l' h
    simp only [syncSelect, locScope, h]
  exact sync_locs_twice
    (build_master_server_list w.globalServers w.projectServers go po)
    (build_master_keysNodup w.globalServers w.projectServers go po)
    (syncSelect go po) hsel w.locations hready

theorem c3_witness :
    (sync_all (sync_all c3SampleWorld false false false none).2 false false
      false none).1.updated_locations = [] :=
  c3_amended c3SampleWorld false false (by decide)
